import Mathlib

/-!
Verification development for the excitation client's geometry-to-text
alignment engine (`client/src/Utility.ts`).

Coordinates are modelled as rationals (`ℚ`); JavaScript number arrays become
`List ℚ`, character offsets become `Nat`.  Fallible code paths (JavaScript
`TypeError` on `undefined` property access) are modelled with `Option`.
Collaborators from the `di` module that are not part of the sources
(`adjacent`, `onSameLine`, `combinePolygons`, `flattenPolygon4`,
`toPolygon4`, `excerptToSummary`) are either modelled from the spec or taken
as explicit function parameters.
-/

namespace Excitation

/-- Embedding of JavaScript `Math.round`: rounds to the nearest integer,
ties toward positive infinity. -/
def jsRound (q : ℚ) : ℤ := ⌊q + 1/2⌋

/-- From `Utility.ts` `round`: rounds a number to the given precision,
`Math.round(value * 10^precision) / 10^precision`. -/
def round (value : ℚ) (precision : Nat := 0) : ℚ :=
  let multiplier : ℚ := 10 ^ precision
  (jsRound (value * multiplier) : ℚ) / multiplier

/-- From `Utility.ts` `polygonize`: from x(x0, x1) and y(y0, y1) create an
8 value polygon. -/
def polygonize (x y : List ℚ) : List ℚ :=
  [x.getD 0 0, y.getD 0 0, x.getD 1 0, y.getD 0 0,
   x.getD 1 0, y.getD 1 0, x.getD 0 0, y.getD 1 0]

/-- Modelled from the spec: `adjacent(polyA, polyB, delta=0.2)` of the `di`
module (not under the sources; spec §4.1, and kept identical to the
commented-out copy in `Utility.ts`): true if the two rectangles'
projections overlap, or are separated by at most `delta` page-space units,
on both axes, after rounding edge coordinates to 1 decimal. -/
def adjacent (poly0 poly1 : List ℚ) (delta : ℚ := 0.2) : Bool :=
  let x0 : List ℚ := [round (poly0.getD 0 0) 1, round (poly0.getD 2 0) 1]
  let y0 : List ℚ := [round (poly0.getD 1 0) 1, round (poly0.getD 5 0) 1]
  let x1 : List ℚ := [round (poly1.getD 0 0) 1, round (poly1.getD 2 0) 1]
  let y1 : List ℚ := [round (poly1.getD 1 0) 1, round (poly1.getD 5 0) 1]
  if x0.getD 0 0 > x1.getD 1 0 + delta ∨ x1.getD 0 0 > x0.getD 1 0 + delta ∨
     y0.getD 0 0 > y1.getD 1 0 + delta ∨ y1.getD 0 0 > y0.getD 1 0 + delta
  then false else true

/-- Modelled from the spec: `onSameLine(polyA, polyB, minOverlapFraction)`
of the `di` module (not under the sources; spec §4.1): true if the vertical
extents of the two rectangles overlap by at least `minOverlapFraction` of
the smaller rectangle's height. -/
def onSameLine (polyA polyB : List ℚ) (minOverlapFraction : ℚ) : Bool :=
  let aTop := polyA.getD 1 0
  let aBottom := polyA.getD 5 0
  let bTop := polyB.getD 1 0
  let bBottom := polyB.getD 5 0
  let overlap := min aBottom bBottom - max aTop bTop
  let minHeight := min (aBottom - aTop) (bBottom - bTop)
  if overlap ≥ minOverlapFraction * minHeight then true else false

/-- Modelled from the spec: `flattenPolygon4` of the `di` module (not under
the sources; spec §4.6: a tail fragment is "flattened to a simple
rectangle"): the axis-aligned bounding rectangle of the quadrilateral's
four corners. -/
def flattenPolygon4 (p : List ℚ) : List ℚ :=
  let xs := [p.getD 0 0, p.getD 2 0, p.getD 4 0, p.getD 6 0]
  let ys := [p.getD 1 0, p.getD 3 0, p.getD 5 0, p.getD 7 0]
  let minX := min (min (xs.getD 0 0) (xs.getD 1 0)) (min (xs.getD 2 0) (xs.getD 3 0))
  let maxX := max (max (xs.getD 0 0) (xs.getD 1 0)) (max (xs.getD 2 0) (xs.getD 3 0))
  let minY := min (min (ys.getD 0 0) (ys.getD 1 0)) (min (ys.getD 2 0) (ys.getD 3 0))
  let maxY := max (max (ys.getD 0 0) (ys.getD 1 0)) (max (ys.getD 2 0) (ys.getD 3 0))
  polygonize [minX, maxX] [minY, maxY]

/-- Modelled from the spec: the bounding-box variant of `combinePolygons`
of the `di` module (not under the sources; spec §4.4: a column's polygon is
"the union bounding box of its member lines"), reading the edges at the
conventional corner indices (left x at 0, right x at 2, top y at 1,
bottom y at 5). -/
def combinePolygons (polys : List (List ℚ)) : List ℚ :=
  match polys with
  | [] => []
  | p :: ps =>
    let minX := ps.foldl (fun acc q => min acc (q.getD 0 0)) (p.getD 0 0)
    let maxX := ps.foldl (fun acc q => max acc (q.getD 2 0)) (p.getD 2 0)
    let minY := ps.foldl (fun acc q => min acc (q.getD 1 0)) (p.getD 1 0)
    let maxY := ps.foldl (fun acc q => max acc (q.getD 5 0)) (p.getD 5 0)
    polygonize [minX, maxX] [minY, maxY]

/-- From `Utility.ts` `comparePolygons`: compares a bounding regions
polygon to a reference polygon; negative if `poly` is situated earlier in
the page than `refPoly`, `0` if within/about it, positive if later. -/
def comparePolygons (poly refPoly : List ℚ) : ℤ :=
  let x : List ℚ := [poly.getD 0 0, poly.getD 2 0]
  let y : List ℚ := [poly.getD 1 0, poly.getD 5 0]
  let refX : List ℚ := [refPoly.getD 0 0, refPoly.getD 2 0]
  let refY : List ℚ := [refPoly.getD 1 0, refPoly.getD 5 0]
  if y.getD 1 0 < refY.getD 0 0 then -1
  else if y.getD 0 0 > refY.getD 1 0 then 1
  else if x.getD 1 0 < refX.getD 0 0 then -2
  else if x.getD 0 0 > refX.getD 1 0 then 2
  else 0

/-- From `Utility.ts` `compareOffsets`: compares `offsetRange` against
`refOffset`; `-1` if the range is earlier in the page than `refOffset`,
`0` if it contains it, `1` if it is later. -/
def compareOffsets (offsetRange : List Nat) (refOffset : Nat) : ℤ :=
  if offsetRange.getD 1 0 < refOffset then -1
  else if offsetRange.getD 0 0 > refOffset then 1
  else 0

/-! ## Data model (`di` schema as consumed by `Utility.ts`) -/

/-- A half-open character-offset range `{offset, length}`. -/
structure Span where
  offset : Nat
  length : Nat
deriving DecidableEq

/-- One recognized token `{content, polygon, span}`. -/
structure Word where
  content : String
  polygon : List ℚ
  span : Span
deriving DecidableEq

/-- A visual line of text `{content, polygon, spans[]}`. -/
structure Line where
  content : String
  polygon : List ℚ
  spans : List Span
deriving DecidableEq

/-- A precomputed paragraph footprint on one page; index ranges are
inclusive pairs. -/
structure Region where
  polygon : List ℚ
  lineIndices : Nat × Nat
  wordIndices : Nat × Nat
  paragraphIndex : Nat
deriving DecidableEq

/-- One page of the analyzed document.  `regions` is `none` until the
region preprocessor has attached it (it is accessed with optional chaining
in part of the source). -/
structure Page where
  pageNumber : Nat
  words : List Word
  lines : List Line
  regions : Option (List Region)
deriving DecidableEq

structure AnalyzeResult where
  pages : List Page
deriving DecidableEq

structure DocIntResponse where
  analyzeResult : AnalyzeResult
deriving DecidableEq

/-- A complex polygon: up to three axis-aligned fragments. -/
structure PolygonC where
  head : Option (List ℚ)
  body : Option (List ℚ)
  tail : Option (List ℚ)
deriving DecidableEq

/-- A complex polygon tagged with its page. -/
structure PolygonOnPage where
  page : Nat
  polygon : PolygonC
deriving DecidableEq

/-- A page-scoped rectangle exchanged with the rendering layer. -/
structure Bounds where
  pageNumber : Nat
  polygon : List ℚ
deriving DecidableEq

/-- Groups of complex polygons belonging to one page (spec §3 declares
`citationRegions : ComplexPolygon[][]`). -/
structure CitationRegionsPerPage where
  page : Nat
  citationRegions : List (List PolygonC)
deriving DecidableEq

/-- From `Utility.ts`: a column is a polygon plus an array of lines. -/
structure Column where
  polygon : List ℚ
  lines : List Line
deriving DecidableEq

/-- The result of the text-locate collaborator `excerptToSummary`
(spec §6): the located excerpt and its per-page complex polygons. -/
structure Summary where
  excerpt : String
  polygons : List PolygonOnPage
deriving DecidableEq

/-- A screen-selection rectangle as returned by `getClientRects`. -/
structure Rect where
  x : ℚ
  y : ℚ
  width : ℚ
  height : ℚ
deriving DecidableEq

instance : Inhabited Line := ⟨⟨"", [], []⟩⟩
instance : Inhabited Word := ⟨⟨"", [], ⟨0, 0⟩⟩⟩

/-! ## Spatial binary search

`Utility.ts` contains two textually identical binary searches over a
reading-order-sorted sequence, one keyed by `comparePolygons` (values in
`{-2,-1,0,1,2}`; cases `-2,-1` recurse left and `1,2` recurse right) and
one keyed by `compareOffsets` (values in `{-1,0,1}`).  Both are instances
of the following search parameterized by the comparison
`c item = cmp(query, item)`, with `c item < 0` recursing left and
`0 < c item` recursing right. -/

/-- Embedding of `getFirstPolyIntersectionIndex` /
`getFirstOffsetIntersectionIndex`: starting from `items[axis]` and working
backward, find the first entry whose comparison against the query is `0`. -/
def expandDown {α : Type} (c : α → ℤ) (items : List α) : Nat → Nat
  | 0 => 0
  | a + 1 =>
    match items[a]? with
    | some x => if c x = 0 then expandDown c items a else a + 1
    | none => a + 1

/-- Embedding of `getLastPolyIntersectionIndex` /
`getLastOffsetIntersectionIndex`: starting from `items[axis]` and working
forward, find the last entry whose comparison against the query is `0`. -/
def expandUp {α : Type} (c : α → ℤ) (items : List α) (axis : Nat) : Nat :=
  match h : items[axis + 1]? with
  | some x => if c x = 0 then expandUp c items (axis + 1) else axis
  | none => axis
termination_by items.length - axis
decreasing_by
  have : axis + 1 < items.length := by
    have := List.getElem?_eq_some.mp h
    exact this.1
  omega

/-- The common body of `polygonBinarySearch` and `offsetBinarySearch`:
searches `items[start, e)` for the query in a binary search.  `[]` is
returned when there is no data (`e = 0`) or no further entries to search
(`start = e`).  The source diverges when `e < start`; that case is
unreachable from the callers and modelled as `[]`.  Out-of-range access
(only possible when `e` exceeds the length) is modelled as `[]` as well. -/
def searchBy {α : Type} (c : α → ℤ) (items : List α) (start e : Nat) :
    List α :=
  if e = 0 then []
  else if start = e then []
  else if e < start then []
  else
    let axis := (e - start) / 2 + start
    match items[axis]? with
    | none => []
    | some x =>
      if c x < 0 then searchBy c items start axis
      else if c x = 0 then
        (items.drop (expandDown c items axis)).take
          (expandUp c items axis + 1 - expandDown c items axis)
      else searchBy c items (axis + 1) e
termination_by e - start
decreasing_by
  · omega
  · omega

/-- The comparison instantiated by `polygonBinarySearch`:
`comparePolygons(poly, line.polygon)`. -/
def polyCompare (poly : List ℚ) (l : Line) : ℤ :=
  comparePolygons poly l.polygon

/-- The comparison instantiated by `offsetBinarySearch`:
`compareOffsets(offsetRange, word.span.offset)`. -/
def offsetCompare (offsetRange : List Nat) (w : Word) : ℤ :=
  compareOffsets offsetRange w.span.offset

/-- From `Utility.ts` `polygonBinarySearch`: searches `lines[start, e)` for
`poly`; the source's cases `-2, -1` (recurse left) and `1, 2` (recurse
right) are the sign cases of `searchBy`. -/
def polygonBinarySearch (lines : List Line) (start e : Nat)
    (poly : List ℚ) : List Line :=
  searchBy (polyCompare poly) lines start e

/-- From `Utility.ts` `offsetBinarySearch`: searches `words[start, e)` for
the words contained within the offset range. -/
def offsetBinarySearch (words : List Word) (start e : Nat)
    (offsetRange : List Nat) : List Word :=
  searchBy (offsetCompare offsetRange) words start e

/-! ## Column partitioning -/

/-- The loop of `splitIntoColumns`: scan `lines` from `currentLine`,
wrapping up a column whenever the current line is the last line or the next
line is not adjacent to it.  `firstLineOfCol` is the index of the first
line of the currently open column, `cols` the columns already wrapped. -/
def splitLoop (lines : List Line) (currentLine firstLineOfCol : Nat)
    (cols : List Column) : List Column :=
  if h : currentLine < lines.length then
    let boundary : Bool :=
      if currentLine = lines.length - 1 then true
      else
        match lines[currentLine + 1]? with
        | some nxt => !(adjacent nxt.polygon lines[currentLine].polygon)
        | none => true
    if boundary then
      let colLines :=
        (lines.drop firstLineOfCol).take (currentLine + 1 - firstLineOfCol)
      let polygon := combinePolygons (colLines.map (fun l => l.polygon))
      splitLoop lines (currentLine + 1) (currentLine + 1)
        (cols ++ [⟨polygon, colLines⟩])
    else splitLoop lines (currentLine + 1) firstLineOfCol cols
  else cols
termination_by lines.length - currentLine

/-- From `Utility.ts` `splitIntoColumns`: takes an array of lines and
returns an array of `Column` items; zero lines yield one empty column, one
line yields one column containing it. -/
def splitIntoColumns (lines : List Line) : List Column :=
  match lines with
  | [] => [⟨[], []⟩]
  | [l] => [⟨l.polygon, [l]⟩]
  | _ => splitLoop lines 0 0 []

/-- From `Utility.ts` `getRelevantColumns`: the columns whose polygon
intersects `poly`. -/
def getRelevantColumns (columns : List Column) (poly : List ℚ) :
    List Column :=
  columns.filter (fun col => comparePolygons col.polygon poly == 0)

/-! ## Forward mapper (text → bounds) -/

/-- The per-complex-polygon body of `convertCitationRegionsToBounds`: the
`head` block (extended down to the tail's top when `forceOverlap` is set,
`body` is missing, `tail` exists and a gap exists), the `body` block
(top clamped to the head's bottom and bottom clamped to the tail's top when
`forceOverlap` is set and a gap exists), and the `tail` block (flattened,
otherwise unmodified), pushed in that order. -/
def processPolyC (forceOverlap : Bool) (page : Nat) (polyC : PolygonC) :
    List Bounds :=
  let headBounds : List Bounds :=
    match polyC.head with
    | none => []
    | some head =>
      let modifiedHead :=
        match forceOverlap, polyC.body, polyC.tail with
        | true, none, some tail =>
          let headBottom := max (head.getD 5 0) (head.getD 7 0)
          let tailTop := min (tail.getD 1 0) (tail.getD 3 0)
          if headBottom < tailTop then (head.set 5 tailTop).set 7 tailTop
          else head
        | _, _, _ => head
      [⟨page, modifiedHead⟩]
  let bodyBounds : List Bounds :=
    match polyC.body with
    | none => []
    | some body =>
      let afterHead :=
        match forceOverlap, polyC.head with
        | true, some head =>
          let headBottom := max (head.getD 5 0) (head.getD 7 0)
          let bodyTop := min (body.getD 1 0) (body.getD 3 0)
          if headBottom < bodyTop then (body.set 1 headBottom).set 3 headBottom
          else body
        | _, _ => body
      let afterTail :=
        match forceOverlap, polyC.tail with
        | true, some tail =>
          let tailTop := min (tail.getD 1 0) (tail.getD 3 0)
          let bodyBottom := max (afterHead.getD 5 0) (afterHead.getD 7 0)
          if bodyBottom < tailTop then
            (afterHead.set 5 tailTop).set 7 tailTop
          else afterHead
        | _, _ => afterHead
      [⟨page, afterTail⟩]
  let tailBounds : List Bounds :=
    match polyC.tail with
    | none => []
    | some tail => [⟨page, flattenPolygon4 tail⟩]
  headBounds ++ bodyBounds ++ tailBounds

/-- From `Utility.ts` `convertCitationRegionsToBounds`: converts
`CitationRegionsPerPage` objects into `Bounds`; each complex polygon of
each region group is processed by `processPolyC` and the resulting bounds
are pushed in iteration order.  This is the function's behavior on input of
its declared type; for the ill-typed flat data `returnTextPolygonsFromDI`
actually passes at runtime, see
`convertCitationRegionsToBoundsRuntime`. -/
def convertCitationRegionsToBounds
    (citationRegionsPerPage : List CitationRegionsPerPage)
    (forceOverlap : Bool := false) : List Bounds :=
  citationRegionsPerPage.foldl
    (fun bounds g =>
      g.citationRegions.foldl
        (fun bounds region =>
          region.foldl
            (fun bounds polyC => bounds ++ processPolyC forceOverlap g.page polyC)
            bounds)
        bounds)
    []

/-- Grouping step of `returnTextPolygonsFromDI`: a JavaScript `Map` keyed
by page, pushing each polygon onto its page's list; keys keep first-seen
order. -/
def insertPoly (acc : List (Nat × List PolygonC)) (page : Nat)
    (polygon : PolygonC) : List (Nat × List PolygonC) :=
  match acc with
  | [] => [(page, [polygon])]
  | (p, ps) :: rest =>
    if p = page then (p, ps ++ [polygon]) :: rest
    else (p, ps) :: insertPoly rest page polygon

/-- The contents of the page-keyed `Map` in `returnTextPolygonsFromDI`. -/
def citationGroups (polys : List PolygonOnPage) :
    List (Nat × List PolygonC) :=
  polys.foldl (fun acc pp => insertPoly acc pp.page pp.polygon) []

/-- The `results.sort((a, b) => a.page - b.page)` step of
`returnTextPolygonsFromDI`: sort the page groups by page ascending (pages
are distinct `Map` keys, so any comparison sort agrees; modelled as
insertion sort).  The groups carry the flat per-page `PolygonC` list the
`Map` actually holds at runtime. -/
def insertByPage (x : Nat × List PolygonC) (l : List (Nat × List PolygonC)) :
    List (Nat × List PolygonC) :=
  match l with
  | [] => [x]
  | y :: ys => if x.1 ≤ y.1 then x :: y :: ys else y :: insertByPage x ys

def sortByPage (l : List (Nat × List PolygonC)) :
    List (Nat × List PolygonC) :=
  l.foldr insertByPage []

/-- JavaScript `for (const polyC of region)` where `region` is a plain
`{head, body, tail}` record: a record has no `Symbol.iterator`, so the loop
header throws a `TypeError` before any iteration (modelled `none`; had the
record been iterable, the loop body would have consumed the produced
`PolygonC` items). -/
def polygonCIterate (region : PolygonC) : Option (List PolygonC) := none

/-- One `region` of the inner loop of `convertCitationRegionsToBounds` as
it actually executes on the values built by `returnTextPolygonsFromDI`:
at runtime `region` is a single `PolygonC` record (the flat list's
element), and `for (const polyC of region)` throws. -/
def runtimeRegionStep (forceOverlap : Bool) (page : Nat)
    (acc : Option (List Bounds)) (region : PolygonC) : Option (List Bounds) :=
  acc.bind (fun bounds =>
    (polygonCIterate region).map (fun polyCs =>
      polyCs.foldl
        (fun bounds polyC => bounds ++ processPolyC forceOverlap page polyC)
        bounds))

/-- `convertCitationRegionsToBounds` as it actually executes on the data
`returnTextPolygonsFromDI` passes it: the source builds
`Map<number, PolygonC[]>` and pushes each page's **flat** `PolygonC` list
where the declared `CitationRegionsPerPage` type (spec §3) nests
`ComplexPolygon[][]`, so the function's inner `for (const polyC of region)`
iterates a non-iterable record and throws a `TypeError` on the first
region of the first group (modelled `none`). -/
def convertCitationRegionsToBoundsRuntime
    (citationRegionsPerPage : List (Nat × List PolygonC))
    (forceOverlap : Bool) : Option (List Bounds) :=
  citationRegionsPerPage.foldl
    (fun bounds g =>
      bounds.bind (fun bs =>
        g.2.foldl (runtimeRegionStep forceOverlap g.1) (some bs)))
    (some [])

/-- Embedding of JavaScript `String.prototype.trim`: strip leading and
trailing whitespace (Lean's `String.trim` is byte-array based and does not
reduce in the kernel, so the character-list equivalent is used). -/
def jsTrim (s : String) : String :=
  String.mk (((s.data.dropWhile Char.isWhitespace).reverse.dropWhile
    Char.isWhitespace).reverse)

/-- From `Utility.ts` `returnTextPolygonsFromDI`: locates `text` via the
text-locate collaborator `excerptToSummary` (not under the sources; passed
here as the parameter `ets`), returns an empty array when no or an empty
excerpt was found, otherwise groups the summary's polygons by page, sorts
the groups by page ascending and hands them to
`convertCitationRegionsToBounds` with `forceOverlap = false`.

The handed-over groups hold a **flat** `PolygonC` list per page while the
callee iterates them as `ComplexPolygon[][]` (spec §3), so the found path
executes `convertCitationRegionsToBoundsRuntime`, which throws a
`TypeError` (modelled `none`) whenever any fragment was located. -/
def returnTextPolygonsFromDI (ets : String → DocIntResponse → Summary)
    (text : String) (di : DocIntResponse) : Option (List Bounds) :=
  let summary := ets text di
  if summary.excerpt = "" then some []
  else if jsTrim summary.excerpt = "" then some []
  else
    let results := sortByPage (citationGroups summary.polygons)
    convertCitationRegionsToBoundsRuntime results false

/-! ## Reverse mapper (polygon/selection → text) -/

/-- 1-indexed page access `pages[n - 1]`; `n = 0` yields the JavaScript
`pages[-1] = undefined`, modelled as `none`. -/
def pageAt (pages : List Page) (n : Nat) : Option Page :=
  if n = 0 then none else pages[n - 1]?

/-- The per-bound body of `findTextFromBoundingRegions`: split the page
into columns, binary-search the relevant columns for intersecting lines,
derive the offset range from the first and last intersecting line, then
binary-search the page's words and keep those intersecting the bound.
`none` models a thrown `TypeError` (missing page or missing line span);
an empty intersecting-line list is the source's `continue`. -/
def collectBoundWords (response : DocIntResponse) (bound : Bounds) :
    Option (List Word) :=
  match pageAt response.analyzeResult.pages bound.pageNumber with
  | none => none
  | some page =>
    let lines := page.lines
    let words := page.words
    let columns := splitIntoColumns lines
    let relevantColumns := getRelevantColumns columns bound.polygon
    let intersectingLines := relevantColumns.foldl
      (fun acc col =>
        acc ++ polygonBinarySearch col.lines 0 col.lines.length bound.polygon)
      []
    match intersectingLines with
    | [] => some []
    | firstLine :: _ =>
      match firstLine.spans[0]?,
            (intersectingLines.getLast?).bind (fun l => l.spans[0]?) with
      | some s0, some sl =>
        let offsetStart := s0.offset
        let offsetEnd := sl.offset + sl.length
        let intersectingWords :=
          offsetBinarySearch words 0 words.length [offsetStart, offsetEnd]
        some (intersectingWords.filter
          (fun word => comparePolygons word.polygon bound.polygon == 0))
      | _, _ => none

/-- The `excerptWords` accumulated over all bounds by
`findTextFromBoundingRegions`. -/
def collectExcerptWords (response : DocIntResponse) (bounds : List Bounds) :
    Option (List Word) :=
  bounds.foldl
    (fun acc bound =>
      acc.bind (fun ws => (collectBoundWords response bound).map (ws ++ ·)))
    (some [])

/-- From `Utility.ts` `findTextFromBoundingRegions`: given bounds and a doc
int response, find the most likely excerpt text; when the joined excerpt is
empty it is replaced by the placeholder `"could not find matching
line(s)"`. -/
def findTextFromBoundingRegions (response : DocIntResponse)
    (bounds : List Bounds) : Option String :=
  (collectExcerptWords response bounds).map (fun excerptWords =>
    let excerpt := String.intercalate " " (excerptWords.map (fun w => w.content))
    if excerpt = "" then "could not find matching line(s)" else excerpt)

/-- The word-acceptance test of `findTextFromPolygonC`: the word is
adjacent (tolerance `-0.05` for head and tail, `-0.1` for body) and on the
same line (`0.9` overlap) with some non-empty part of the complex
polygon. -/
def acceptWord (polyC : PolygonC) (word : Word) : Bool :=
  (match polyC.head with
   | some h => adjacent word.polygon h (-0.05) && onSameLine word.polygon h 0.9
   | none => false) ||
  (match polyC.body with
   | some b => adjacent word.polygon b (-0.1) && onSameLine word.polygon b 0.9
   | none => false) ||
  (match polyC.tail with
   | some t => adjacent word.polygon t (-0.05) && onSameLine word.polygon t 0.9
   | none => false)

/-- From `Utility.ts` `findTextFromPolygonC`: restrict the candidate words
to `page.words[region.wordIndices[0] .. region.wordIndices[1]]` (inclusive;
the source's `slice(i0, i1 + 1)`), keep those accepted by `acceptWord`, and
join their contents with single spaces.  `none` models the thrown
`TypeError` when the page, its `regions`, or the indexed region is missing
(in particular when `paragraphId` is `none`, the JavaScript
`undefined`). -/
def findTextFromPolygonC (response : DocIntResponse)
    (incomingPolygonC : PolygonOnPage) (paragraphId : Option Nat) :
    Option String :=
  match pageAt response.analyzeResult.pages incomingPolygonC.page with
  | none => none
  | some regionPage =>
    match regionPage.regions with
    | none => none
    | some rs =>
      match paragraphId.bind (fun i => rs[i]?) with
      | none => none
      | some polygonRegion =>
        let regionPossibleWords :=
          (regionPage.words.drop polygonRegion.wordIndices.1).take
            (polygonRegion.wordIndices.2 + 1 - polygonRegion.wordIndices.1)
        let excerptWords :=
          regionPossibleWords.filter (acceptWord incomingPolygonC.polygon)
        some (String.intercalate " " (excerptWords.map (fun w => w.content)))

/-- The region-match test of `findParagraphFromBoundingPolygonC`, written
as the source's if/else-if chain over the head, body and tail parts (the
source's argument orders are kept; `onSameLine` and `adjacent` are
symmetric, spec §4.1). -/
def regionMatch (polyC : PolygonC) (regionPolygon : List ℚ) : Bool :=
  if (match polyC.head with
      | some h => onSameLine h regionPolygon 0.9 && adjacent h regionPolygon 0.1
      | none => false) then true
  else if (match polyC.body with
      | some b => onSameLine regionPolygon b 0.9 && adjacent b regionPolygon 0.1
      | none => false) then true
  else if (match polyC.tail with
      | some t => onSameLine regionPolygon t 0.9 && adjacent t regionPolygon 0.1
      | none => false) then true
  else false

/-- JavaScript `Set.add`: append if not already present. -/
def addUnique (l : List Nat) (x : Nat) : List Nat :=
  if x ∈ l then l else l ++ [x]

/-- The `found_paragraphs` set of `findParagraphFromBoundingPolygonC`, in
insertion order: for every page with the polygon's page number, the indices
of the regions matched by `regionMatch` (skipped when the page has no
`regions`, the source's optional chaining). -/
def matchedRegionIndices (response : DocIntResponse)
    (polyC : PolygonOnPage) : List Nat :=
  response.analyzeResult.pages.foldl
    (fun acc pg =>
      if pg.pageNumber ≠ polyC.page then acc
      else
        match pg.regions with
        | none => acc
        | some rs =>
          rs.enum.foldl
            (fun acc ir =>
              if regionMatch polyC.polygon ir.2.polygon then addUnique acc ir.1
              else acc)
            acc)
    []

/-- From `Utility.ts` `findParagraphFromBoundingPolygonC`: collect the
matching region indices; when the set has more than one element or is
empty the source only logs and falls through (returning the JavaScript
`undefined`, modelled `none`); otherwise it returns the single element. -/
def findParagraphFromBoundingPolygonC (response : DocIntResponse)
    (polyC : PolygonOnPage) : Option Nat :=
  let found := matchedRegionIndices response polyC
  if found.length > 1 then none
  else if found.length = 0 then none
  else found.head?

/-! ## Selection pipeline -/

/-- The `rectCoords` array built by `findUserSelection`: top left, top
right, bottom right, bottom left. -/
def rectCoords (rect : Rect) : List ℚ :=
  [rect.x, rect.y,
   rect.x + rect.width, rect.y,
   rect.x + rect.width, rect.y + rect.height,
   rect.x, rect.y + rect.height]

/-- Modelled from the spec: `toPolygon4` of the `di` module (not under the
sources).  The spec's polygon is exactly an 8-value corner list in reading
order (spec §3), which `rectCoords` already produces, so the conversion is
the identity. -/
def toPolygon4 (coords : List ℚ) : List ℚ := coords

/-- The in-place coordinate adjustment of `findUserSelection`: subtract the
viewport offsets (`dx` for x, `dy` for y), divide by the multiplier 72 and
round to 4 decimal places.  Every index is assigned exactly once from its
own original value, so the in-place loop equals this pointwise map. -/
def adjustPolygon (dx dy : ℚ) (p : List ℚ) : List ℚ :=
  [round ((p.getD 0 0 - dx) / 72) 4, round ((p.getD 1 0 - dy) / 72) 4,
   round ((p.getD 2 0 - dx) / 72) 4, round ((p.getD 3 0 - dy) / 72) 4,
   round ((p.getD 4 0 - dx) / 72) 4, round ((p.getD 5 0 - dy) / 72) 4,
   round ((p.getD 6 0 - dx) / 72) 4, round ((p.getD 7 0 - dy) / 72) 4]

/-- The selection-polygon construction of `findUserSelection`: keep the
rectangles with `width > 0`, turn each into an 8-value polygon, then adjust
every polygon into page space.  The viewport offsets `dx`, `dy` are read
from the DOM in the source and are supplied by the caller here
(spec §4.8/§6). -/
def findUserSelectionPolygons (rects : List Rect) (dx dy : ℚ) :
    List (List ℚ) :=
  (rects.foldl
    (fun acc rect =>
      if 0 < rect.width then acc ++ [toPolygon4 (rectCoords rect)] else acc)
    []).map (adjustPolygon dx dy)

/-- The loop body of `findUserSelection`: resolve the complex polygon's
paragraph, extract its words and append them to the running excerpt
(`none` models an exception propagating out of the loop). -/
def selectionExcerptStep (response : DocIntResponse) (pageNumber : Nat)
    (acc : Option String) (c : PolygonC) : Option String :=
  acc.bind (fun e =>
    let complexSelectionOnPage : PolygonOnPage := ⟨pageNumber, c⟩
    let paragraphId :=
      findParagraphFromBoundingPolygonC response complexSelectionOnPage
    (findTextFromPolygonC response complexSelectionOnPage paragraphId).map
      (fun s => e ++ s))

/-- From `Utility.ts` `findUserSelection`: convert the selection rectangles
to page-space polygons, combine them into complex polygons via the
geometry-combination collaborator (not under the sources; parameter
`combine`), resolve each complex polygon's paragraph and extract its words
into a running excerpt, then re-resolve the excerpt through
`returnTextPolygonsFromDI` (collaborator `ets`).  `none` models a thrown
`TypeError` (from `findTextFromPolygonC` when no paragraph was resolved, or
propagated out of `returnTextPolygonsFromDI`). -/
def findUserSelection (combine : List (List ℚ) → List PolygonC)
    (ets : String → DocIntResponse → Summary) (pageNumber : Nat)
    (rects : List Rect) (dx dy : ℚ) (response : DocIntResponse) :
    Option (String × List Bounds) :=
  let selectionPolygons := findUserSelectionPolygons rects dx dy
  let complexSelection := combine selectionPolygons
  let excerpt :=
    complexSelection.foldl (selectionExcerptStep response pageNumber)
      (some "")
  excerpt.bind (fun e =>
    (returnTextPolygonsFromDI ets e response).map (fun bounds => (e, bounds)))

/-!
## Helper lemmas: the binary search returns the contiguous zero band

Throughout this section, the query's comparison against an entry is the
integer `c entry` (so `0 < c entry` means the entry lies before the query,
`c entry < 0` that it lies after it, matching both source comparators).
The band of matching entries occupies the index interval `[i, i + k)`.
-/

section Band

variable {α : Type} (c : α → ℤ) (items : List α) (i k : Nat)

lemma expandDown_eq
    (hc : ∀ t (h : t < items.length),
      (t < i → 0 < c items[t]) ∧ (i ≤ t → t < i + k → c items[t] = 0) ∧
      (i + k ≤ t → c items[t] < 0))
    (hik : i + k ≤ items.length) :
    ∀ axis, i ≤ axis → axis < i + k → expandDown c items axis = i := by
  intro axis
  induction axis with
  | zero =>
    intro hi _
    simp [expandDown]
    omega
  | succ a ih =>
    intro hi hlt
    have ha : a < items.length := by omega
    rw [expandDown, List.getElem?_eq_getElem ha]
    by_cases hia : i ≤ a
    · have h0 : c items[a] = 0 := (hc a ha).2.1 hia (by omega)
      simp [h0]
      exact ih hia (by omega)
    · have hpos : 0 < c items[a] := (hc a ha).1 (by omega)
      simp [show ¬(c items[a] = 0) by omega]
      omega

lemma expandUp_stop (axis : Nat)
    (hc : ∀ t (h : t < items.length),
      (t < i → 0 < c items[t]) ∧ (i ≤ t → t < i + k → c items[t] = 0) ∧
      (i + k ≤ t → c items[t] < 0))
    (haxis : axis = i + k - 1) (_hk : 0 < k) :
    expandUp c items axis = i + k - 1 := by
  rw [expandUp]
  split
  next x hx =>
    have hlen : axis + 1 < items.length := (List.getElem?_eq_some.mp hx).1
    have hxe : items[axis + 1] = x := (List.getElem?_eq_some.mp hx).2
    have hneg : c x < 0 := hxe ▸ (hc (axis + 1) hlen).2.2 (by omega)
    rw [if_neg (by omega)]
    exact haxis
  next hx => exact haxis

lemma expandUp_eq
    (hc : ∀ t (h : t < items.length),
      (t < i → 0 < c items[t]) ∧ (i ≤ t → t < i + k → c items[t] = 0) ∧
      (i + k ≤ t → c items[t] < 0))
    (hik : i + k ≤ items.length) :
    ∀ n axis, i + k - 1 - axis ≤ n → i ≤ axis → axis < i + k →
      expandUp c items axis = i + k - 1 := by
  intro n
  induction n with
  | zero =>
    intro axis hn hi hlt
    exact expandUp_stop c items i k axis hc (by omega) (by omega)
  | succ m ih =>
    intro axis hn hi hlt
    by_cases hend : axis = i + k - 1
    · exact expandUp_stop c items i k axis hc hend (by omega)
    · have hlt1 : axis + 1 < i + k := by omega
      have hlen : axis + 1 < items.length := by omega
      rw [expandUp, List.getElem?_eq_getElem hlen]
      have h0 : c items[axis + 1] = 0 := (hc (axis + 1) hlen).2.1 (by omega) hlt1
      simp [h0]
      exact ih (axis + 1) (by omega) (by omega) hlt1

lemma searchBy_band_aux
    (hc : ∀ t (h : t < items.length),
      (t < i → 0 < c items[t]) ∧ (i ≤ t → t < i + k → c items[t] = 0) ∧
      (i + k ≤ t → c items[t] < 0))
    (hik : i + k ≤ items.length) :
    ∀ n start e, e - start ≤ n → start ≤ e → e ≤ items.length →
      (k = 0 ∨ (start ≤ i ∧ i + k ≤ e)) →
      searchBy c items start e = (items.drop i).take k := by
  intro n
  induction n with
  | zero =>
    intro start e hn hse hlen hdisj
    have hk : k = 0 := by omega
    rw [searchBy]
    subst hk
    simp only [List.take_zero]
    split_ifs with h1 h2 h3
    · rfl
    · rfl
    · rfl
    · omega
  | succ m ih =>
    intro start e hn hse hlen hdisj
    by_cases he0 : e = 0
    · have hk : k = 0 := by omega
      rw [searchBy, if_pos he0]
      simp [hk]
    · by_cases hse2 : start = e
      · have hk : k = 0 := by omega
        rw [searchBy, if_neg he0, if_pos hse2]
        simp [hk]
      · have hslt : start < e := by omega
        rw [searchBy, if_neg he0, if_neg hse2, if_neg (by omega)]
        have haxlt : (e - start) / 2 + start < e := by omega
        have haxge : start ≤ (e - start) / 2 + start := by omega
        have haxlen : (e - start) / 2 + start < items.length := by omega
        dsimp only
        rw [List.getElem?_eq_getElem haxlen]
        dsimp only
        rcases lt_trichotomy (c items[(e - start) / 2 + start]) 0 with
          hneg | hzero | hpos
        · rw [if_pos hneg]
          refine ih start ((e - start) / 2 + start) (by omega) (by omega)
            (by omega) ?_
          rcases hdisj with hk | ⟨h1, h2⟩
          · exact Or.inl hk
          · by_cases hk0 : k = 0
            · exact Or.inl hk0
            · refine Or.inr ⟨h1, ?_⟩
              by_contra hcon
              push_neg at hcon
              rcases Nat.lt_or_ge ((e - start) / 2 + start) i with hai | hai
              · have := (hc ((e - start) / 2 + start) haxlen).1 hai
                omega
              · have := (hc ((e - start) / 2 + start) haxlen).2.1 hai (by omega)
                omega
        · rw [if_neg (by omega), if_pos hzero]
          have hax_i : i ≤ (e - start) / 2 + start := by
            by_contra hcon
            push_neg at hcon
            have := (hc ((e - start) / 2 + start) haxlen).1 hcon
            omega
          have hax_ik : (e - start) / 2 + start < i + k := by
            by_contra hcon
            push_neg at hcon
            have := (hc ((e - start) / 2 + start) haxlen).2.2 hcon
            omega
          rw [expandDown_eq c items i k hc hik ((e - start) / 2 + start)
            hax_i hax_ik]
          rw [expandUp_eq c items i k hc hik (i + k - 1 - ((e - start) / 2 + start))
            ((e - start) / 2 + start) le_rfl hax_i hax_ik]
          congr 1
          omega
        · rw [if_neg (by omega), if_neg (by omega)]
          refine ih ((e - start) / 2 + start + 1) e (by omega) (by omega)
            hlen ?_
          rcases hdisj with hk | ⟨h1, h2⟩
          · exact Or.inl hk
          · by_cases hk0 : k = 0
            · exact Or.inl hk0
            · refine Or.inr ⟨?_, h2⟩
              by_contra hcon
              push_neg at hcon
              rcases Nat.lt_or_ge ((e - start) / 2 + start) (i + k) with hx | hx
              · have := (hc ((e - start) / 2 + start) haxlen).2.1 (by omega) hx
                omega
              · have := (hc ((e - start) / 2 + start) haxlen).2.2 hx
                omega

lemma searchBy_band
    (hc : ∀ t (h : t < items.length),
      (t < i → 0 < c items[t]) ∧ (i ≤ t → t < i + k → c items[t] = 0) ∧
      (i + k ≤ t → c items[t] < 0))
    (hik : i + k ≤ items.length) :
    searchBy c items 0 items.length = (items.drop i).take k := by
  refine searchBy_band_aux c items i k hc hik items.length 0 items.length
    le_rfl (Nat.zero_le _) le_rfl ?_
  exact Or.inr ⟨Nat.zero_le _, hik⟩

/-- A list split into a block the query is after, a block matching it, and
a block it is before, is searched to exactly the matching block. -/
lemma searchBy_decomp (A B C : List α)
    (hA : ∀ x ∈ A, 0 < c x) (hB : ∀ x ∈ B, c x = 0)
    (hC : ∀ x ∈ C, c x < 0) :
    searchBy c (A ++ B ++ C) 0 (A ++ B ++ C).length = B := by
  have hres : ((A ++ B ++ C).drop A.length).take B.length = B := by
    rw [List.append_assoc, List.drop_left, List.take_left]
  conv_rhs => rw [← hres]
  refine searchBy_band c (A ++ B ++ C) A.length B.length ?_ (by simp)
  intro t ht
  have htlen : t < A.length + B.length + C.length := by
    have := ht
    simp only [List.length_append] at this
    omega
  refine ⟨?_, ?_, ?_⟩
  · intro hti
    have e1 : (A ++ B ++ C)[t] = A[t] := by
      rw [List.getElem_append_left
          (show t < (A ++ B).length by simp only [List.length_append]; omega),
        List.getElem_append_left hti]
    rw [e1]
    exact hA _ (List.getElem_mem _)
  · intro ht1 ht2
    have e1 : (A ++ B ++ C)[t] = B[t - A.length] := by
      rw [List.getElem_append_left
          (show t < (A ++ B).length by simp only [List.length_append]; omega),
        List.getElem_append_right ht1]
    rw [e1]
    exact hB _ (List.getElem_mem _)
  · intro ht1
    have hidx : t - (A ++ B).length < C.length := by
      simp only [List.length_append]
      omega
    have e1 : (A ++ B ++ C)[t] = C[t - (A ++ B).length] := by
      rw [List.getElem_append_right
        (show (A ++ B).length ≤ t by simp only [List.length_append]; omega)]
    rw [e1]
    exact hC _ (List.getElem_mem _)

end Band

lemma polygonBinarySearch_eq_searchBy (lines : List Line) (start e : Nat)
    (poly : List ℚ) :
    polygonBinarySearch lines start e poly =
      searchBy (polyCompare poly) lines start e := rfl

lemma offsetBinarySearch_eq_searchBy (words : List Word) (start e : Nat)
    (offsetRange : List Nat) :
    offsetBinarySearch words start e offsetRange =
      searchBy (offsetCompare offsetRange) words start e := rfl

/-! ## Claim theorems -/

/-- **C5**: `polygonBinarySearch` and `offsetBinarySearch` return the empty
list when the sequence is empty or the search window is empty, return the
empty list when the query compares strictly before (comparison `< 0`) or
strictly after (comparison `> 0`) every entry, and, under the precondition
that the entries the query compares after (comparison `> 0`; the entries
comparing negative relative to the query) precede the entries comparing
`0`, which precede the entries the query compares before (comparison
`< 0`), return exactly the contiguous slice of `k` entries starting at
index `i` that compare `0`, regardless of which index is probed first. -/
theorem binarySearch_returns_contiguous_band :
    (∀ (lines : List Line) (start : Nat) (poly : List ℚ),
      polygonBinarySearch lines start 0 poly = [] ∧
      polygonBinarySearch lines start start poly = []) ∧
    (∀ (words : List Word) (start : Nat) (offsetRange : List Nat),
      offsetBinarySearch words start 0 offsetRange = [] ∧
      offsetBinarySearch words start start offsetRange = []) ∧
    (∀ (lines : List Line) (poly : List ℚ),
      ((∀ t (h : t < lines.length),
          comparePolygons poly lines[t].polygon < 0) →
        polygonBinarySearch lines 0 lines.length poly = []) ∧
      ((∀ t (h : t < lines.length),
          0 < comparePolygons poly lines[t].polygon) →
        polygonBinarySearch lines 0 lines.length poly = [])) ∧
    (∀ (words : List Word) (offsetRange : List Nat),
      ((∀ t (h : t < words.length),
          compareOffsets offsetRange words[t].span.offset < 0) →
        offsetBinarySearch words 0 words.length offsetRange = []) ∧
      ((∀ t (h : t < words.length),
          0 < compareOffsets offsetRange words[t].span.offset) →
        offsetBinarySearch words 0 words.length offsetRange = [])) ∧
    (∀ (lines : List Line) (poly : List ℚ) (i k : Nat),
      i + k ≤ lines.length →
      (∀ t (h : t < lines.length),
        (t < i → 0 < comparePolygons poly lines[t].polygon) ∧
        (i ≤ t → t < i + k → comparePolygons poly lines[t].polygon = 0) ∧
        (i + k ≤ t → comparePolygons poly lines[t].polygon < 0)) →
      polygonBinarySearch lines 0 lines.length poly =
        (lines.drop i).take k) ∧
    (∀ (words : List Word) (offsetRange : List Nat) (i k : Nat),
      i + k ≤ words.length →
      (∀ t (h : t < words.length),
        (t < i → 0 < compareOffsets offsetRange words[t].span.offset) ∧
        (i ≤ t → t < i + k →
          compareOffsets offsetRange words[t].span.offset = 0) ∧
        (i + k ≤ t → compareOffsets offsetRange words[t].span.offset < 0)) →
      offsetBinarySearch words 0 words.length offsetRange =
        (words.drop i).take k) := by
  have hempty : ∀ (α : Type) (c : α → ℤ) (items : List α) (start : Nat),
      searchBy c items start 0 = [] ∧ searchBy c items start start = [] := by
    intro α c items start
    constructor
    · rw [searchBy]
      simp
    · rw [searchBy]
      by_cases h : start = 0 <;> simp [h]
  have hnone : ∀ (α : Type) (c : α → ℤ) (items : List α),
      (∀ t (h : t < items.length), c items[t] < 0) →
      searchBy c items 0 items.length = [] := by
    intro α c items hall
    have hres := searchBy_band c items 0 0 ?_ (by omega)
    · simpa using hres
    · intro t ht
      exact ⟨fun h => absurd h (Nat.not_lt_zero t),
        fun h1 h2 => absurd h2 (by omega), fun _ => hall t ht⟩
  have hafter : ∀ (α : Type) (c : α → ℤ) (items : List α),
      (∀ t (h : t < items.length), 0 < c items[t]) →
      searchBy c items 0 items.length = [] := by
    intro α c items hall
    have hres := searchBy_band c items items.length 0 ?_ (by omega)
    · simpa using hres
    · intro t ht
      exact ⟨fun _ => hall t ht, fun h1 h2 => absurd h2 (by omega),
        fun h => absurd h (by omega)⟩
  refine ⟨?_, ?_, ?_, ?_, ?_, ?_⟩
  · intro lines start poly
    rw [polygonBinarySearch_eq_searchBy, polygonBinarySearch_eq_searchBy]
    exact hempty _ _ lines start
  · intro words start r
    rw [offsetBinarySearch_eq_searchBy, offsetBinarySearch_eq_searchBy]
    exact hempty _ _ words start
  · intro lines poly
    rw [polygonBinarySearch_eq_searchBy]
    exact ⟨hnone _ (polyCompare poly) lines, hafter _ (polyCompare poly) lines⟩
  · intro words r
    rw [offsetBinarySearch_eq_searchBy]
    exact ⟨hnone _ (offsetCompare r) words, hafter _ (offsetCompare r) words⟩
  · intro lines poly i k hik hc
    rw [polygonBinarySearch_eq_searchBy]
    exact searchBy_band (polyCompare poly) lines i k hc hik
  · intro words r i k hik hc
    rw [offsetBinarySearch_eq_searchBy]
    exact searchBy_band (offsetCompare r) words i k hc hik

def bandDemoLines : List Line :=
  [⟨"above", [0, 0, 1, 0, 1, 1, 0, 1], [⟨0, 5⟩]⟩,
   ⟨"inside one", [0, 2, 1, 2, 1, 3, 0, 3], [⟨6, 10⟩]⟩,
   ⟨"inside two", [0, 4, 1, 4, 1, 6, 0, 6], [⟨17, 10⟩]⟩]

def bandDemoWords : List Word :=
  [⟨"w0", [], ⟨0, 3⟩⟩, ⟨"w5", [], ⟨5, 3⟩⟩, ⟨"w10", [], ⟨10, 3⟩⟩,
   ⟨"w20", [], ⟨20, 3⟩⟩]

/-- Witness for **C5** at a concrete three-line page, a query polygon
covering lines 1 and 2, and a concrete word list with offsets
`0, 5, 10, 20` against the range `[4, 11]`. -/
theorem binarySearch_returns_contiguous_band_witness :
    polygonBinarySearch bandDemoLines 0 bandDemoLines.length
        [0, 2, 1, 2, 1, 5, 0, 5] = (bandDemoLines.drop 1).take 2 ∧
    offsetBinarySearch bandDemoWords 0 bandDemoWords.length [4, 11] =
      (bandDemoWords.drop 1).take 2 := by
  constructor
  · exact binarySearch_returns_contiguous_band.2.2.2.2.1 bandDemoLines
      [0, 2, 1, 2, 1, 5, 0, 5] 1 2 (by decide) (by decide)
  · exact binarySearch_returns_contiguous_band.2.2.2.2.2 bandDemoWords
      [4, 11] 1 2 (by decide) (by decide)

/-- **C7**: for axis-aligned quadrilaterals (top edge y at index 1 below
bottom edge y at index 5, left edge x at index 0 left of right edge x at
index 2), `comparePolygons poly refPoly` is `-1` exactly when `poly`'s
vertical extent lies strictly above `refPoly`'s, `1` exactly when strictly
below, `-2` exactly when the vertical extents overlap and `poly`'s
horizontal extent lies strictly left, `2` exactly when they overlap and it
lies strictly right, and `0` exactly when the extents overlap on both
axes. -/
theorem comparePolygons_reading_order (poly refPoly : List ℚ)
    (hwf : poly.getD 1 0 ≤ poly.getD 5 0 ∧ poly.getD 0 0 ≤ poly.getD 2 0)
    (hwfRef : refPoly.getD 1 0 ≤ refPoly.getD 5 0 ∧
      refPoly.getD 0 0 ≤ refPoly.getD 2 0) :
    (comparePolygons poly refPoly = -1 ↔
      poly.getD 5 0 < refPoly.getD 1 0) ∧
    (comparePolygons poly refPoly = 1 ↔
      refPoly.getD 5 0 < poly.getD 1 0) ∧
    (comparePolygons poly refPoly = -2 ↔
      (refPoly.getD 1 0 ≤ poly.getD 5 0 ∧ poly.getD 1 0 ≤ refPoly.getD 5 0) ∧
      poly.getD 2 0 < refPoly.getD 0 0) ∧
    (comparePolygons poly refPoly = 2 ↔
      (refPoly.getD 1 0 ≤ poly.getD 5 0 ∧ poly.getD 1 0 ≤ refPoly.getD 5 0) ∧
      refPoly.getD 2 0 < poly.getD 0 0) ∧
    (comparePolygons poly refPoly = 0 ↔
      (refPoly.getD 1 0 ≤ poly.getD 5 0 ∧ poly.getD 1 0 ≤ refPoly.getD 5 0) ∧
      (refPoly.getD 0 0 ≤ poly.getD 2 0 ∧ poly.getD 0 0 ≤ refPoly.getD 2 0)) := by
  obtain ⟨hwy, hwx⟩ := hwf
  obtain ⟨hry, hrx⟩ := hwfRef
  have hdef : comparePolygons poly refPoly =
      if poly.getD 5 0 < refPoly.getD 1 0 then -1
      else if poly.getD 1 0 > refPoly.getD 5 0 then 1
      else if poly.getD 2 0 < refPoly.getD 0 0 then -2
      else if poly.getD 0 0 > refPoly.getD 2 0 then 2
      else 0 := rfl
  rw [hdef]
  split_ifs with h1 h2 h3 h4
  · exact ⟨iff_of_true rfl h1,
      iff_of_false (by decide) (fun hx => by linarith),
      iff_of_false (by decide) (fun hx => by linarith [hx.1.1]),
      iff_of_false (by decide) (fun hx => by linarith [hx.1.1]),
      iff_of_false (by decide) (fun hx => by linarith [hx.1.1])⟩
  · exact ⟨iff_of_false (by decide) h1,
      iff_of_true rfl h2,
      iff_of_false (by decide) (fun hx => by linarith [hx.1.2]),
      iff_of_false (by decide) (fun hx => by linarith [hx.1.2]),
      iff_of_false (by decide) (fun hx => by linarith [hx.1.2])⟩
  · push_neg at h1 h2
    exact ⟨iff_of_false (by decide) (fun hx => by linarith),
      iff_of_false (by decide) (fun hx => by linarith),
      iff_of_true rfl ⟨⟨h1, h2⟩, h3⟩,
      iff_of_false (by decide) (fun hx => by linarith [hx.2]),
      iff_of_false (by decide) (fun hx => by linarith [hx.2.1])⟩
  · push_neg at h1 h2 h3
    exact ⟨iff_of_false (by decide) (fun hx => by linarith),
      iff_of_false (by decide) (fun hx => by linarith),
      iff_of_false (by decide) (fun hx => by linarith [hx.2]),
      iff_of_true rfl ⟨⟨h1, h2⟩, h4⟩,
      iff_of_false (by decide) (fun hx => by linarith [hx.2.2])⟩
  · push_neg at h1 h2 h3 h4
    exact ⟨iff_of_false (by decide) (fun hx => by linarith),
      iff_of_false (by decide) (fun hx => by linarith),
      iff_of_false (by decide) (fun hx => by linarith [hx.2]),
      iff_of_false (by decide) (fun hx => by linarith [hx.2]),
      iff_of_true rfl ⟨⟨h1, h2⟩, ⟨h3, h4⟩⟩⟩

/-- A list of words sorted by span offset splits into the words before
`lo` (still at most `hi`), the words inside `[lo, hi]`, and the words after
`hi`, in that order. -/
lemma sorted_offset_decomp (lo hi : Nat) :
    ∀ (words : List Word),
      words.Pairwise (fun a b => a.span.offset ≤ b.span.offset) →
      ∃ A B C, words = A ++ B ++ C ∧
        (∀ w ∈ A, w.span.offset ≤ hi ∧ w.span.offset < lo) ∧
        (∀ w ∈ B, lo ≤ w.span.offset ∧ w.span.offset ≤ hi) ∧
        (∀ w ∈ C, hi < w.span.offset) := by
  intro words
  induction words with
  | nil => exact fun _ => ⟨[], [], [], rfl, by simp, by simp, by simp⟩
  | cons w ws ih =>
    intro hp
    have hall := List.pairwise_cons.mp hp
    obtain ⟨A, B, C, heq, hA, hB, hC⟩ := ih hall.2
    rcases Nat.lt_or_ge hi w.span.offset with hzC | hle
    · have hAnil : A = [] := by
        cases A with
        | nil => rfl
        | cons a as =>
          exfalso
          have hmem : a ∈ ws := by rw [heq]; simp
          have h1 := hall.1 a hmem
          have h2 := (hA a (by simp)).1
          omega
      have hBnil : B = [] := by
        cases B with
        | nil => rfl
        | cons b bs =>
          exfalso
          have hmem : b ∈ ws := by rw [heq]; simp
          have h1 := hall.1 b hmem
          have h2 := (hB b (by simp)).2
          omega
      refine ⟨[], [], w :: C, ?_, by simp, by simp, ?_⟩
      · rw [heq, hAnil, hBnil]
        simp
      · intro x hx
        rcases List.mem_cons.mp hx with hx | hx
        · subst hx; exact hzC
        · exact hC x hx
    · rcases Nat.lt_or_ge w.span.offset lo with hzA | hzB
      · refine ⟨w :: A, B, C, by rw [heq]; simp, ?_, hB, hC⟩
        intro x hx
        rcases List.mem_cons.mp hx with hx | hx
        · subst hx; exact ⟨hle, hzA⟩
        · exact hA x hx
      · have hAnil : A = [] := by
          cases A with
          | nil => rfl
          | cons a as =>
            exfalso
            have hmem : a ∈ ws := by rw [heq]; simp
            have h1 := hall.1 a hmem
            have h2 := (hA a (by simp)).2
            omega
        refine ⟨[], w :: B, C, ?_, by simp, ?_, hC⟩
        · rw [heq, hAnil]
          simp
        · intro x hx
          rcases List.mem_cons.mp hx with hx | hx
          · subst hx; exact ⟨hzB, hle⟩
          · exact hB x hx

/-- **C10**: the word search of `findTextFromBoundingRegions` compares the
query offset range only against each word's span start offset:
`compareOffsets [offsetStart, offsetEnd]` matches a word exactly when
`offsetStart ≤ span.offset ≤ offsetEnd` (boundary equality counts), so
under the precondition that words are sorted by span offset ascending,
`offsetBinarySearch` over the whole word list returns exactly those words,
and a word whose span begins before `offsetStart` is excluded even when its
span overlaps the query range. -/
theorem offsetSearch_filters_by_span_start :
    (∀ (offsetStart offsetEnd o : Nat),
      compareOffsets [offsetStart, offsetEnd] o = 0 ↔
        offsetStart ≤ o ∧ o ≤ offsetEnd) ∧
    (∀ (words : List Word) (offsetStart offsetEnd : Nat),
      words.Pairwise (fun a b => a.span.offset ≤ b.span.offset) →
      offsetBinarySearch words 0 words.length [offsetStart, offsetEnd] =
        words.filter (fun w =>
          decide (offsetStart ≤ w.span.offset ∧
            w.span.offset ≤ offsetEnd))) ∧
    (∀ (words : List Word) (offsetStart offsetEnd : Nat) (w : Word),
      words.Pairwise (fun a b => a.span.offset ≤ b.span.offset) →
      w.span.offset < offsetStart →
      w ∉ offsetBinarySearch words 0 words.length
        [offsetStart, offsetEnd]) := by
  have hcmp : ∀ (lo hi : Nat) (x : Word), offsetCompare [lo, hi] x =
      if hi < x.span.offset then -1
      else if lo > x.span.offset then 1 else 0 := fun _ _ _ => rfl
  have hmain : ∀ (words : List Word) (lo hi : Nat),
      words.Pairwise (fun a b => a.span.offset ≤ b.span.offset) →
      offsetBinarySearch words 0 words.length [lo, hi] =
        words.filter (fun w =>
          decide (lo ≤ w.span.offset ∧ w.span.offset ≤ hi)) := by
    intro words lo hi hsort
    obtain ⟨A, B, C, heq, hA, hB, hC⟩ := sorted_offset_decomp lo hi words hsort
    subst heq
    rw [offsetBinarySearch_eq_searchBy]
    rw [searchBy_decomp (offsetCompare [lo, hi]) A B C ?_ ?_ ?_]
    · have hfA : A.filter (fun w =>
          decide (lo ≤ w.span.offset ∧ w.span.offset ≤ hi)) = [] := by
        rw [List.filter_eq_nil_iff]
        intro a ha
        have := hA a ha
        simp only [decide_eq_true_eq]
        omega
      have hfB : B.filter (fun w =>
          decide (lo ≤ w.span.offset ∧ w.span.offset ≤ hi)) = B := by
        rw [List.filter_eq_self]
        intro a ha
        have := hB a ha
        simp only [decide_eq_true_eq]
        omega
      have hfC : C.filter (fun w =>
          decide (lo ≤ w.span.offset ∧ w.span.offset ≤ hi)) = [] := by
        rw [List.filter_eq_nil_iff]
        intro a ha
        have := hC a ha
        simp only [decide_eq_true_eq]
        omega
      rw [List.filter_append, List.filter_append, hfA, hfB, hfC]
      simp
    · intro x hx
      have hz := hA x hx
      rw [hcmp]
      rw [if_neg (by omega), if_pos (by omega)]
      omega
    · intro x hx
      have hz := hB x hx
      rw [hcmp]
      rw [if_neg (by omega), if_neg (by omega)]
    · intro x hx
      have hz := hC x hx
      rw [hcmp]
      rw [if_pos (by omega)]
      omega
  refine ⟨?_, hmain, ?_⟩
  · intro lo hi o
    have hdef : compareOffsets [lo, hi] o =
        if hi < o then -1 else if lo > o then 1 else 0 := rfl
    rw [hdef]
    split_ifs with ha hb
    · exact iff_of_false (by decide) (by omega)
    · exact iff_of_false (by decide) (by omega)
    · exact iff_of_true rfl (by omega)
  · intro words lo hi w hsort hlt hmem
    rw [hmain words lo hi hsort] at hmem
    have := (List.mem_filter.mp hmem).2
    simp only [decide_eq_true_eq] at this
    omega

/-- Extracting words with the JavaScript `undefined` paragraph id throws
(the `TypeError` from `regions[undefined].wordIndices`), modelled as
`none`, whatever the document. -/
lemma findTextFromPolygonC_undefined (response : DocIntResponse)
    (pp : PolygonOnPage) :
    findTextFromPolygonC response pp none = none := by
  rw [findTextFromPolygonC]
  cases hpg : pageAt response.analyzeResult.pages pp.page with
  | none => rfl
  | some regionPage =>
    dsimp only
    cases hre : regionPage.regions with
    | none => rfl
    | some rs => rfl

/-- Once an iteration of the `findUserSelection` loop has thrown, the rest
of the loop never recovers. -/
lemma selectionExcerptFold_none (response : DocIntResponse)
    (pageNumber : Nat) :
    ∀ (l : List PolygonC),
      l.foldl (selectionExcerptStep response pageNumber) none = none := by
  intro l
  induction l with
  | nil => rfl
  | cons c cs ih =>
    rw [List.foldl_cons]
    rw [show selectionExcerptStep response pageNumber none c = none from rfl]
    exact ih

/-- **C2 (amended)**: `returnTextPolygonsFromDI` returns an empty `Bounds`
array (a normal completion, `some []`) when the excerpt is not found (empty
or all-whitespace); when no
words match, `findTextFromBoundingRegions` returns the placeholder string
`"could not find matching line(s)"` rather than the empty string; and
`findUserSelection` throws (modelled: returns `none`) — it does not
complete normally — when the first complex polygon of its selection
matches no paragraph region. -/
theorem notFound_outcomes :
    (∀ (ets : String → DocIntResponse → Summary) (text : String)
        (di : DocIntResponse),
      ((ets text di).excerpt = "" ∨ jsTrim (ets text di).excerpt = "") →
      returnTextPolygonsFromDI ets text di = some []) ∧
    (∀ (response : DocIntResponse) (bounds : List Bounds),
      collectExcerptWords response bounds = some [] →
      findTextFromBoundingRegions response bounds =
        some "could not find matching line(s)") ∧
    (∀ (combine : List (List ℚ) → List PolygonC)
        (ets : String → DocIntResponse → Summary) (pageNumber : Nat)
        (rects : List Rect) (dx dy : ℚ) (response : DocIntResponse)
        (c : PolygonC) (rest : List PolygonC),
      combine (findUserSelectionPolygons rects dx dy) = c :: rest →
      findParagraphFromBoundingPolygonC response ⟨pageNumber, c⟩ = none →
      findUserSelection combine ets pageNumber rects dx dy response =
        none) := by
  refine ⟨?_, ?_, ?_⟩
  · intro ets text di h
    rw [returnTextPolygonsFromDI]
    rcases h with h | h
    · rw [if_pos h]
    · by_cases h1 : (ets text di).excerpt = ""
      · rw [if_pos h1]
      · rw [if_neg h1, if_pos h]
  · intro response bounds h
    rw [findTextFromBoundingRegions, h]
    rfl
  · intro combine ets pageNumber rects dx dy response c rest hcomb hpara
    rw [findUserSelection]
    rw [hcomb, List.foldl_cons]
    have hstep : selectionExcerptStep response pageNumber (some "") c =
        none := by
      rw [selectionExcerptStep]
      dsimp only [Option.bind]
      rw [hpara, findTextFromPolygonC_undefined]
      rfl
    rw [hstep, selectionExcerptFold_none response pageNumber rest]
    rfl

/-- Counterexample to **C2** as stated: with no bounds at all, no words
match, yet `findTextFromBoundingRegions` returns the placeholder string —
not the empty excerpt string the claim promises. -/
theorem findText_sentinel_counterexample :
    findTextFromBoundingRegions ⟨⟨[]⟩⟩ [] =
      some "could not find matching line(s)" ∧
    "could not find matching line(s)" ≠ "" := by
  constructor
  · rfl
  · decide

def c2DemoEts : String → DocIntResponse → Summary :=
  fun _ _ => ⟨"", []⟩

def c2DemoCombine : List (List ℚ) → List PolygonC :=
  fun _ => [⟨none, none, none⟩]

/-- Witness for **C2 (amended)**: a text-locate collaborator that finds
nothing yields no bounds; an empty bounds list yields the placeholder
excerpt; a selection whose complex polygon has no parts matches no
paragraph region, and the user-selection pipeline propagates the thrown
error (`none`). -/
theorem notFound_outcomes_witness :
    returnTextPolygonsFromDI c2DemoEts "quote" ⟨⟨[]⟩⟩ = some [] ∧
    findTextFromBoundingRegions ⟨⟨[]⟩⟩ [] =
      some "could not find matching line(s)" ∧
    findUserSelection c2DemoCombine c2DemoEts 1 [] 0 0 ⟨⟨[]⟩⟩ = none := by
  refine ⟨?_, ?_, ?_⟩
  · exact notFound_outcomes.1 c2DemoEts "quote" ⟨⟨[]⟩⟩ (Or.inl rfl)
  · exact notFound_outcomes.2.1 ⟨⟨[]⟩⟩ [] rfl
  · exact notFound_outcomes.2.2 c2DemoCombine c2DemoEts 1 [] 0 0 ⟨⟨[]⟩⟩
      ⟨none, none, none⟩ [] rfl rfl

lemma mem_addUnique (l : List Nat) (x y : Nat) :
    y ∈ addUnique l x ↔ y ∈ l ∨ y = x := by
  unfold addUnique
  split_ifs with h
  · constructor
    · exact Or.inl
    · rintro (hy | rfl)
      · exact hy
      · exact h
  · simp [List.mem_append]

lemma mem_enumFold (pc : PolygonC) :
    ∀ (l : List (Nat × Region)) (acc : List Nat) (x : Nat),
      x ∈ l.foldl
        (fun acc ir =>
          if regionMatch pc ir.2.polygon then addUnique acc ir.1 else acc)
        acc ↔
      (x ∈ acc ∨ ∃ ir ∈ l, regionMatch pc ir.2.polygon = true ∧ x = ir.1) := by
  intro l
  induction l with
  | nil => simp
  | cons ir irs ih =>
    intro acc x
    simp only [List.foldl_cons]
    by_cases hm : regionMatch pc ir.2.polygon = true
    · rw [if_pos hm, ih, mem_addUnique]
      constructor
      · rintro ((hy | rfl) | ⟨ir2, h2, h3, h4⟩)
        · exact Or.inl hy
        · exact Or.inr ⟨ir, List.mem_cons_self ir irs, hm, rfl⟩
        · exact Or.inr ⟨ir2, List.mem_cons_of_mem ir h2, h3, h4⟩
      · rintro (hy | ⟨ir2, h2, h3, h4⟩)
        · exact Or.inl (Or.inl hy)
        · rcases List.mem_cons.mp h2 with rfl | h2
          · exact Or.inl (Or.inr h4)
          · exact Or.inr ⟨ir2, h2, h3, h4⟩
    · rw [if_neg hm, ih]
      constructor
      · rintro (hy | ⟨ir2, h2, h3, h4⟩)
        · exact Or.inl hy
        · exact Or.inr ⟨ir2, List.mem_cons_of_mem ir h2, h3, h4⟩
      · rintro (hy | ⟨ir2, h2, h3, h4⟩)
        · exact Or.inl hy
        · rcases List.mem_cons.mp h2 with rfl | h2
          · exact absurd h3 hm
          · exact Or.inr ⟨ir2, h2, h3, h4⟩

lemma enumFold_exists_iff (pc : PolygonC) (rs : List Region) (x : Nat) :
    (∃ ir ∈ rs.enum, regionMatch pc ir.2.polygon = true ∧ x = ir.1) ↔
      ∃ region, rs[x]? = some region ∧
        regionMatch pc region.polygon = true := by
  constructor
  · rintro ⟨⟨i, r⟩, hmem, hmatch, rfl⟩
    exact ⟨r, List.mem_enum_iff_getElem?.mp hmem, hmatch⟩
  · rintro ⟨region, hget, hmatch⟩
    exact ⟨(x, region), List.mem_enum_iff_getElem?.mpr hget, hmatch, rfl⟩

lemma mem_matchedRegionIndices (response : DocIntResponse)
    (polyC : PolygonOnPage) (x : Nat) :
    x ∈ matchedRegionIndices response polyC ↔
      ∃ pg ∈ response.analyzeResult.pages, pg.pageNumber = polyC.page ∧
        ∃ rs, pg.regions = some rs ∧
          ∃ region, rs[x]? = some region ∧
            regionMatch polyC.polygon region.polygon = true := by
  have haux : ∀ (pages : List Page) (acc : List Nat),
      x ∈ pages.foldl
        (fun acc pg =>
          if pg.pageNumber ≠ polyC.page then acc
          else
            match pg.regions with
            | none => acc
            | some rs =>
              rs.enum.foldl
                (fun acc ir =>
                  if regionMatch polyC.polygon ir.2.polygon then
                    addUnique acc ir.1
                  else acc)
                acc)
        acc ↔
      (x ∈ acc ∨ ∃ pg ∈ pages, pg.pageNumber = polyC.page ∧
        ∃ rs, pg.regions = some rs ∧
          ∃ region, rs[x]? = some region ∧
            regionMatch polyC.polygon region.polygon = true) := by
    intro pages
    induction pages with
    | nil => simp
    | cons pg pgs ih =>
      intro acc
      simp only [List.foldl_cons]
      by_cases hpg : pg.pageNumber = polyC.page
      · rw [if_neg (by simpa using hpg)]
        cases hre : pg.regions with
        | none =>
          rw [ih]
          constructor
          · rintro (hy | hrest)
            · exact Or.inl hy
            · exact Or.inr (by
                obtain ⟨pg2, h1, h2⟩ := hrest
                exact ⟨pg2, List.mem_cons_of_mem pg h1, h2⟩)
          · rintro (hy | ⟨pg2, h1, h2, rs, h3, hrest⟩)
            · exact Or.inl hy
            · rcases List.mem_cons.mp h1 with rfl | h1
              · rw [hre] at h3
                exact absurd h3 (by simp)
              · exact Or.inr ⟨pg2, h1, h2, rs, h3, hrest⟩
        | some rs =>
          rw [ih, mem_enumFold polyC.polygon rs.enum acc x,
            enumFold_exists_iff polyC.polygon rs x]
          constructor
          · rintro ((hy | hfound) | hrest)
            · exact Or.inl hy
            · exact Or.inr ⟨pg, List.mem_cons_self pg pgs, hpg, rs, hre,
                hfound⟩
            · exact Or.inr (by
                obtain ⟨pg2, h1, h2⟩ := hrest
                exact ⟨pg2, List.mem_cons_of_mem pg h1, h2⟩)
          · rintro (hy | ⟨pg2, h1, h2, rs2, h3, hrest⟩)
            · exact Or.inl (Or.inl hy)
            · rcases List.mem_cons.mp h1 with rfl | h1
              · rw [hre] at h3
                have hrs : rs2 = rs := by
                  injection h3.symm
                subst hrs
                exact Or.inl (Or.inr hrest)
              · exact Or.inr ⟨pg2, h1, h2, rs2, h3, hrest⟩
      · rw [if_pos (by simpa using hpg), ih]
        constructor
        · rintro (hy | hrest)
          · exact Or.inl hy
          · exact Or.inr (by
              obtain ⟨pg2, h1, h2⟩ := hrest
              exact ⟨pg2, List.mem_cons_of_mem pg h1, h2⟩)
        · rintro (hy | ⟨pg2, h1, h2, hrest⟩)
          · exact Or.inl hy
          · rcases List.mem_cons.mp h1 with rfl | h1
            · exact absurd h2 hpg
            · exact Or.inr ⟨pg2, h1, h2, hrest⟩
  rw [matchedRegionIndices, haux response.analyzeResult.pages []]
  simp

/-- **C1 (amended)**: `findParagraphFromBoundingPolygonC` collects into a
set exactly the indices of the precomputed regions on the named page for
which some non-empty part of the complex polygon passes the
`onSameLine(0.9)`-and-`adjacent(0.1)` test against the region polygon
(second conjunct), and returns the single match when exactly one region
matches, but `none` — not the first match — when zero or more than one
region matches (first conjunct). -/
theorem findParagraph_characterization (response : DocIntResponse)
    (polyC : PolygonOnPage) :
    (findParagraphFromBoundingPolygonC response polyC =
      match matchedRegionIndices response polyC with
      | [i] => some i
      | _ => none) ∧
    (∀ idx, idx ∈ matchedRegionIndices response polyC ↔
      ∃ pg ∈ response.analyzeResult.pages, pg.pageNumber = polyC.page ∧
        ∃ rs, pg.regions = some rs ∧
          ∃ region, rs[idx]? = some region ∧
            regionMatch polyC.polygon region.polygon = true) := by
  constructor
  · rcases hm : matchedRegionIndices response polyC with _ | ⟨a, _ | ⟨b, rest⟩⟩ <;>
      simp [findParagraphFromBoundingPolygonC, hm]
  · intro idx
    exact mem_matchedRegionIndices response polyC idx

def c1Rect : List ℚ := [0, 0, 1, 0, 1, 1, 0, 1]

def c1Region : Region := ⟨c1Rect, (0, 0), (0, 0), 0⟩

def c1Response : DocIntResponse :=
  ⟨⟨[⟨1, [], [], some [c1Region, c1Region]⟩]⟩⟩

def c1Poly : PolygonOnPage := ⟨1, ⟨some c1Rect, none, none⟩⟩

/-- Counterexample to **C1** as stated: on a page whose first two regions
both match the selection head, the matched set is `{0, 1}` — so a first
match (index 0) exists — yet the function returns `none`, not the first
match. -/
theorem findParagraph_multimatch_counterexample :
    matchedRegionIndices c1Response c1Poly = [0, 1] ∧
    findParagraphFromBoundingPolygonC c1Response c1Poly = none := by
  have hm : regionMatch c1Poly.polygon c1Rect = true := by
    norm_num [regionMatch, c1Poly, c1Rect, onSameLine, adjacent, round,
      jsRound]
  have hmi : matchedRegionIndices c1Response c1Poly = [0, 1] := by
    have h1 : c1Response.analyzeResult.pages =
        [⟨1, [], [], some [c1Region, c1Region]⟩] := rfl
    rw [matchedRegionIndices, h1]
    simp only [List.foldl_cons, List.foldl_nil]
    rw [if_neg (by simp [c1Poly])]
    simp only [List.enum, List.enumFrom, List.foldl_cons, List.foldl_nil]
    rw [if_pos (by simpa [c1Region] using hm),
      if_pos (by simpa [c1Region] using hm)]
    rfl
  refine ⟨hmi, ?_⟩
  rw [findParagraphFromBoundingPolygonC]
  rw [hmi]
  rfl

/-- **C8**: in `findUserSelection`, every screen selection rectangle with
`width > 0`, and only those, is converted to an 8-value page-space polygon:
each y-coordinate becomes `round((y - dy) / 72, 4)` and each x-coordinate
becomes `round((x - dx) / 72, 4)`, where `dx` and `dy` are the viewport
chrome offsets (supplied by the caller in this embedding, spec §4.8/§6);
rectangles whose width is not `> 0` are discarded. -/
theorem findUserSelection_pixel_conversion :
    ∀ (rects : List Rect) (dx dy : ℚ),
      findUserSelectionPolygons rects dx dy =
        (rects.filter (fun r => decide (0 < r.width))).map (fun r =>
          [round ((r.x - dx) / 72) 4,
           round ((r.y - dy) / 72) 4,
           round ((r.x + r.width - dx) / 72) 4,
           round ((r.y - dy) / 72) 4,
           round ((r.x + r.width - dx) / 72) 4,
           round ((r.y + r.height - dy) / 72) 4,
           round ((r.x - dx) / 72) 4,
           round ((r.y + r.height - dy) / 72) 4]) := by
  intro rects dx dy
  have hfold : ∀ (l : List Rect) (acc : List (List ℚ)),
      l.foldl
        (fun acc rect =>
          if 0 < rect.width then acc ++ [toPolygon4 (rectCoords rect)]
          else acc)
        acc =
      acc ++ (l.filter (fun r => decide (0 < r.width))).map
        (fun r => toPolygon4 (rectCoords r)) := by
    intro l
    induction l with
    | nil => intro acc; simp
    | cons r rs ih =>
      intro acc
      by_cases hw : 0 < r.width
      · simp [List.foldl_cons, if_pos hw, ih, List.filter_cons, hw]
      · simp [List.foldl_cons, if_neg hw, ih, List.filter_cons, hw]
  rw [findUserSelectionPolygons, hfold rects [], List.nil_append,
    List.map_map]
  rfl

def c8DemoRects : List Rect :=
  [⟨100, 200, 72, 36⟩, ⟨100, 200, 0, 36⟩]

/-- Witness exercising **C8** (no hypotheses to discharge): the degenerate
zero-width rectangle is dropped and the other one is converted. -/
theorem findUserSelection_pixel_conversion_witness :
    findUserSelectionPolygons c8DemoRects 10 20 =
      [[round ((90 : ℚ) / 72) 4, round ((180 : ℚ) / 72) 4,
        round ((162 : ℚ) / 72) 4, round ((180 : ℚ) / 72) 4,
        round ((162 : ℚ) / 72) 4, round ((216 : ℚ) / 72) 4,
        round ((90 : ℚ) / 72) 4, round ((216 : ℚ) / 72) 4]] := by
  rw [findUserSelection_pixel_conversion c8DemoRects 10 20]
  norm_num [c8DemoRects]

/-- The word-acceptance test of `findTextFromPolygonC`, characterized: a
word is accepted exactly when it is adjacent to some non-empty part of the
complex polygon (tolerance `-0.05` for head and tail, `-0.1` for body) and
on the same line as that part with overlap fraction `0.9`. -/
theorem acceptWord_characterization (polyC : PolygonC) (word : Word) :
    acceptWord polyC word = true ↔
      ((∃ h, polyC.head = some h ∧ adjacent word.polygon h (-0.05) = true ∧
        onSameLine word.polygon h 0.9 = true) ∨
       (∃ b, polyC.body = some b ∧ adjacent word.polygon b (-0.1) = true ∧
        onSameLine word.polygon b 0.9 = true) ∨
       (∃ t, polyC.tail = some t ∧ adjacent word.polygon t (-0.05) = true ∧
        onSameLine word.polygon t 0.9 = true)) := by
  obtain ⟨hd, bd, tl⟩ := polyC
  cases hd <;> cases bd <;> cases tl <;>
    simp [acceptWord, Bool.or_eq_true, Bool.and_eq_true, and_assoc, or_assoc]

/-- **C3**: `findTextFromPolygonC` considers exactly the candidate words
`page.words[region.wordIndices[0] .. region.wordIndices[1]]` (inclusive),
accepts a candidate exactly when `acceptWord` holds of it (which by
`acceptWord_characterization` means adjacency with tolerance `-0.05` for
head/tail and `-0.1` for body plus the `0.9` same-line test against some
non-empty part), and returns the accepted words' contents joined by single
spaces in their original order. -/
theorem findTextFromPolygonC_extractWords :
    ∀ (response : DocIntResponse) (pp : PolygonOnPage) (pid : Nat)
      (regionPage : Page) (rs : List Region) (polygonRegion : Region),
      pageAt response.analyzeResult.pages pp.page = some regionPage →
      regionPage.regions = some rs →
      rs[pid]? = some polygonRegion →
      findTextFromPolygonC response pp (some pid) =
        some (String.intercalate " "
          ((((regionPage.words.drop polygonRegion.wordIndices.1).take
              (polygonRegion.wordIndices.2 + 1 -
                polygonRegion.wordIndices.1)).filter
            (acceptWord pp.polygon)).map (fun w => w.content))) := by
  intro response pp pid regionPage rs polygonRegion hpage hregions hr
  have hbind : (some pid).bind (fun i => rs[i]?) = some polygonRegion := hr
  rw [findTextFromPolygonC, hpage]
  dsimp only
  rw [hregions]
  dsimp only
  rw [hbind]

def c3DemoWordIn : Word :=
  ⟨"inside", [0, 0, 1, 0, 1, 1, 0, 1], ⟨0, 6⟩⟩

def c3DemoWordOut : Word :=
  ⟨"outside", [0, 10, 1, 10, 1, 11, 0, 11], ⟨7, 7⟩⟩

def c3DemoPage : Page :=
  ⟨1, [c3DemoWordIn, c3DemoWordOut], [],
   some [⟨[0, 0, 1, 0, 1, 1, 0, 1], (0, 0), (0, 1), 0⟩]⟩

def c3DemoResponse : DocIntResponse := ⟨⟨[c3DemoPage]⟩⟩

def c3DemoPolyOnPage : PolygonOnPage :=
  ⟨1, ⟨some [0, 0, 1, 0, 1, 1, 0, 1], none, none⟩⟩

/-- Witness for **C3** at a concrete one-page document whose region owns
two candidate words, one geometrically inside the selection head and one
far below it. -/
theorem findTextFromPolygonC_extractWords_witness :
    findTextFromPolygonC c3DemoResponse c3DemoPolyOnPage (some 0) =
      some (String.intercalate " "
        ((((c3DemoPage.words.drop 0).take (1 + 1 - 0)).filter
          (acceptWord c3DemoPolyOnPage.polygon)).map
            (fun w => w.content))) := by
  exact findTextFromPolygonC_extractWords c3DemoResponse c3DemoPolyOnPage 0
    c3DemoPage [⟨[0, 0, 1, 0, 1, 1, 0, 1], (0, 0), (0, 1), 0⟩]
    ⟨[0, 0, 1, 0, 1, 1, 0, 1], (0, 0), (0, 1), 0⟩ (by decide) (by decide)
    (by decide)

/-- **C4**: in `convertCitationRegionsToBounds` with `forceOverlap = true`:
when head exists, body is absent and tail exists, the head's bottom-edge
y-values (indices 5 and 7) are extended down to the tail's top edge exactly
when the head's bottom lies above the tail's top; when body exists, its top
edge (indices 1 and 3) is clamped to the head's bottom and its bottom edge
(indices 5 and 7) to the tail's top only when a gap exists (an
already-overlapping edge is never changed); and the tail polygon is emitted
unchanged except for flattening to a simple rectangle. -/
theorem convertCitationRegions_forceOverlap_stitching :
    (∀ (page : Nat) (h t : List ℚ),
      convertCitationRegionsToBounds [⟨page, [[⟨some h, none, some t⟩]]⟩]
          true =
        [⟨page,
          if max (h.getD 5 0) (h.getD 7 0) < min (t.getD 1 0) (t.getD 3 0)
          then (h.set 5 (min (t.getD 1 0) (t.getD 3 0))).set 7
            (min (t.getD 1 0) (t.getD 3 0))
          else h⟩,
         ⟨page, flattenPolygon4 t⟩]) ∧
    (∀ (page : Nat) (h b t : List ℚ),
      convertCitationRegionsToBounds [⟨page, [[⟨some h, some b, some t⟩]]⟩]
          true =
        [⟨page, h⟩,
         ⟨page,
          let afterHead :=
            if max (h.getD 5 0) (h.getD 7 0) < min (b.getD 1 0) (b.getD 3 0)
            then (b.set 1 (max (h.getD 5 0) (h.getD 7 0))).set 3
              (max (h.getD 5 0) (h.getD 7 0))
            else b
          if max (afterHead.getD 5 0) (afterHead.getD 7 0) <
              min (t.getD 1 0) (t.getD 3 0)
          then (afterHead.set 5 (min (t.getD 1 0) (t.getD 3 0))).set 7
            (min (t.getD 1 0) (t.getD 3 0))
          else afterHead⟩,
         ⟨page, flattenPolygon4 t⟩]) := by
  constructor
  · intro page h t
    rfl
  · intro page h b t
    rfl

/-- `processPolyC` without `forceOverlap` copies head and body untouched
and flattens the tail. -/
lemma processPolyC_false (page : Nat) (polyC : PolygonC) :
    processPolyC false page polyC =
      polyC.head.toList.map (fun p => Bounds.mk page p) ++
      polyC.body.toList.map (fun p => Bounds.mk page p) ++
      polyC.tail.toList.map (fun p => Bounds.mk page (flattenPolygon4 p)) := by
  obtain ⟨hd, bd, tl⟩ := polyC
  cases hd <;> cases bd <;> cases tl <;> rfl

/-- Folding `acc ++ g x` over a list appends the concatenation of the
`g x`. -/
lemma foldl_append_flatMap {β γ : Type} (g : γ → List β) :
    ∀ (l : List γ) (acc : List β),
      l.foldl (fun acc x => acc ++ g x) acc = acc ++ l.flatMap g := by
  intro l
  induction l with
  | nil => intro acc; simp
  | cons x xs ih =>
    intro acc
    simp only [List.foldl_cons, List.flatMap_cons, ih, List.append_assoc]

/-- The region-group level of the `convertCitationRegionsToBounds` fold. -/
lemma foldl_regions_flatMap (fo : Bool) (page : Nat) :
    ∀ (regions : List (List PolygonC)) (acc : List Bounds),
      regions.foldl
        (fun acc region =>
          region.foldl (fun acc polyC => acc ++ processPolyC fo page polyC)
            acc)
        acc =
      acc ++ regions.flatMap (fun region =>
        region.flatMap (processPolyC fo page)) := by
  intro regions
  induction regions with
  | nil => intro acc; simp
  | cons r rs ih =>
    intro acc
    simp only [List.foldl_cons, List.flatMap_cons, ih,
      foldl_append_flatMap (processPolyC fo page) r acc, List.append_assoc]

/-- `convertCitationRegionsToBounds` emits, in order, the processed bounds
of every complex polygon of every group. -/
lemma convertCitationRegionsToBounds_flatMap (fo : Bool) :
    ∀ (crp : List CitationRegionsPerPage),
      convertCitationRegionsToBounds crp fo =
        crp.flatMap (fun g => g.citationRegions.flatMap (fun region =>
          region.flatMap (processPolyC fo g.page))) := by
  have haux : ∀ (crp : List CitationRegionsPerPage) (acc : List Bounds),
      crp.foldl
        (fun bounds g =>
          g.citationRegions.foldl
            (fun bounds region =>
              region.foldl
                (fun bounds polyC => bounds ++ processPolyC fo g.page polyC)
                bounds)
            bounds)
        acc =
      acc ++ crp.flatMap (fun g => g.citationRegions.flatMap (fun region =>
        region.flatMap (processPolyC fo g.page))) := by
    intro crp
    induction crp with
    | nil => intro acc; simp
    | cons g gs ih =>
      intro acc
      simp only [List.foldl_cons, List.flatMap_cons, ih,
        foldl_regions_flatMap fo g.page g.citationRegions acc,
        List.append_assoc]
  intro crp
  have := haux crp []
  simpa [convertCitationRegionsToBounds] using this

/-- The loop header of the inner `for (const polyC of region)` throws for
every `region` the runtime actually supplies, so one region step maps any
accumulator to the error state. -/
lemma runtimeRegionStep_none (fo : Bool) (page : Nat)
    (acc : Option (List Bounds)) (region : PolygonC) :
    runtimeRegionStep fo page acc region = none := by
  cases acc <;> rfl

/-- The region loop of one page group: completes untouched on an empty
group, throws on the first region otherwise. -/
lemma runtime_inner_foldl (fo : Bool) (page : Nat) :
    ∀ (l : List PolygonC) (acc : Option (List Bounds)),
      l.foldl (runtimeRegionStep fo page) acc =
        if l.isEmpty then acc else none := by
  intro l
  induction l with
  | nil => intro acc; rfl
  | cons r rs ih =>
    intro acc
    rw [List.foldl_cons, runtimeRegionStep_none, ih]
    cases rs <;> rfl

/-- Once thrown, the page-group loop stays in the error state. -/
lemma runtime_outer_foldl_none (fo : Bool) :
    ∀ (groups : List (Nat × List PolygonC)),
      groups.foldl
        (fun bounds g =>
          bounds.bind (fun bs =>
            g.2.foldl (runtimeRegionStep fo g.1) (some bs)))
        none = none := by
  intro groups
  induction groups with
  | nil => rfl
  | cons g gs ih =>
    rw [List.foldl_cons]
    exact ih

/-- The page-group loop from a live accumulator: completes with the
accumulator when every group is empty and throws otherwise. -/
lemma runtime_outer_foldl_some (fo : Bool) :
    ∀ (groups : List (Nat × List PolygonC)) (bs : List Bounds),
      groups.foldl
        (fun bounds g =>
          bounds.bind (fun b =>
            g.2.foldl (runtimeRegionStep fo g.1) (some b)))
        (some bs) =
      if groups.all (fun g => g.2.isEmpty) then some bs else none := by
  intro groups
  induction groups with
  | nil => intro bs; rfl
  | cons g gs ih =>
    intro bs
    rw [List.foldl_cons]
    have hstep : Option.bind (some bs)
        (fun b => g.2.foldl (runtimeRegionStep fo g.1) (some b)) =
        if g.2.isEmpty then some bs else none := by
      show g.2.foldl (runtimeRegionStep fo g.1) (some bs) =
        if g.2.isEmpty then some bs else none
      exact runtime_inner_foldl fo g.1 g.2 (some bs)
    rw [hstep]
    by_cases hg : g.2.isEmpty
    · rw [if_pos hg, ih bs]
      simp only [List.all_cons, hg, Bool.true_and]
    · rw [if_neg hg, runtime_outer_foldl_none fo gs]
      simp only [Bool.not_eq_true] at hg
      simp only [List.all_cons, hg, Bool.false_and]
      rfl

/-- `convertCitationRegionsToBounds` on the data actually passed at
runtime: it completes (with an empty result) only when every page group
holds zero complex polygons; with any located fragment present it throws. -/
lemma convertRuntime_characterization
    (groups : List (Nat × List PolygonC)) (fo : Bool) :
    convertCitationRegionsToBoundsRuntime groups fo =
      if groups.all (fun g => g.2.isEmpty) then some [] else none := by
  rw [convertCitationRegionsToBoundsRuntime]
  exact runtime_outer_foldl_some fo groups []

/-- `insertPoly` never produces an empty `Map`. -/
lemma insertPoly_ne_nil (acc : List (Nat × List PolygonC)) (page : Nat)
    (polygon : PolygonC) : insertPoly acc page polygon ≠ [] := by
  cases acc with
  | nil => simp [insertPoly]
  | cons y ys =>
    obtain ⟨p, ps⟩ := y
    rw [insertPoly]
    by_cases hp : p = page
    · rw [if_pos hp]; simp
    · rw [if_neg hp]; simp

/-- The `Map`-building fold preserves non-emptiness. -/
lemma citationGroups_foldl_ne_nil :
    ∀ (xs : List PolygonOnPage) (acc : List (Nat × List PolygonC)),
      acc ≠ [] →
      xs.foldl (fun acc pp => insertPoly acc pp.page pp.polygon) acc ≠ [] := by
  intro xs
  induction xs with
  | nil => intro acc h; exact h
  | cons x xs ih =>
    intro acc h
    rw [List.foldl_cons]
    exact ih _ (insertPoly_ne_nil acc x.page x.polygon)

/-- `insertPoly` preserves the invariant that every page group of the
`Map` is non-empty. -/
lemma insertPoly_all_ne (page : Nat) (polygon : PolygonC) :
    ∀ (acc : List (Nat × List PolygonC)),
      acc.all (fun g => !g.2.isEmpty) = true →
      (insertPoly acc page polygon).all (fun g => !g.2.isEmpty) = true := by
  intro acc
  induction acc with
  | nil => intro _; rfl
  | cons y ys ih =>
    intro h
    obtain ⟨p, ps⟩ := y
    simp only [List.all_cons, Bool.and_eq_true] at h
    rw [insertPoly]
    by_cases hp : p = page
    · rw [if_pos hp]
      simp only [List.all_cons, Bool.and_eq_true]
      constructor
      · cases ps <;> rfl
      · exact h.2
    · rw [if_neg hp]
      simp only [List.all_cons, Bool.and_eq_true]
      exact ⟨h.1, ih h.2⟩

/-- Every page group of the built `Map` holds at least one polygon. -/
lemma citationGroups_all_ne (polys : List PolygonOnPage) :
    (citationGroups polys).all (fun g => !g.2.isEmpty) = true := by
  rw [citationGroups]
  suffices h : ∀ (l : List PolygonOnPage) (acc : List (Nat × List PolygonC)),
      acc.all (fun g => !g.2.isEmpty) = true →
      (l.foldl (fun acc pp => insertPoly acc pp.page pp.polygon) acc).all
        (fun g => !g.2.isEmpty) = true by
    exact h polys [] rfl
  intro l
  induction l with
  | nil => intro acc h; exact h
  | cons x xs ih =>
    intro acc h
    rw [List.foldl_cons]
    exact ih _ (insertPoly_all_ne x.page x.polygon acc h)

/-- `insertByPage` adds exactly its element to an `all` check. -/
lemma insertByPage_all (p : Nat × List PolygonC → Bool)
    (x : Nat × List PolygonC) :
    ∀ (l : List (Nat × List PolygonC)),
      (insertByPage x l).all p = (p x && l.all p) := by
  intro l
  induction l with
  | nil => simp [insertByPage]
  | cons y ys ih =>
    rw [insertByPage]
    by_cases hx : x.1 ≤ y.1
    · rw [if_pos hx]
      simp only [List.all_cons]
    · rw [if_neg hx]
      simp only [List.all_cons, ih]
      cases p x <;> cases p y <;> simp

/-- Sorting the page groups does not change any `all` check. -/
lemma sortByPage_all (p : Nat × List PolygonC → Bool) :
    ∀ (l : List (Nat × List PolygonC)), (sortByPage l).all p = l.all p := by
  intro l
  induction l with
  | nil => rfl
  | cons x xs ih =>
    rw [sortByPage, List.foldr_cons, insertByPage_all p x, List.all_cons]
    have hrec : xs.foldr insertByPage [] = sortByPage xs := rfl
    rw [hrec, ih]

/-- The sorted page groups are all empty exactly when no polygon was
located at all. -/
lemma located_groups_all_isEmpty (polys : List PolygonOnPage) :
    (sortByPage (citationGroups polys)).all (fun g => g.2.isEmpty) =
      polys.isEmpty := by
  rw [sortByPage_all]
  cases polys with
  | nil => rfl
  | cons x xs =>
    have hne : citationGroups (x :: xs) ≠ [] := by
      rw [citationGroups, List.foldl_cons]
      exact citationGroups_foldl_ne_nil xs _ (insertPoly_ne_nil [] x.page x.polygon)
    have hall := citationGroups_all_ne (x :: xs)
    cases hg : citationGroups (x :: xs) with
    | nil => exact absurd hg hne
    | cons g gs =>
      rw [hg] at hall
      simp only [List.all_cons, Bool.and_eq_true, Bool.not_eq_true'] at hall
      simp only [List.all_cons, hall.1]
      rfl

/-- A located summary with one head/tail fragment pair on page 1. -/
def c9DemoSummary : Summary :=
  ⟨"demo excerpt",
   [⟨1, ⟨some [0, 0, 2, 0, 2, 1, 0, 1], none, some [0, 1, 1, 1, 1, 2, 0, 2]⟩⟩]⟩

/-- **C9** (code bug): `returnTextPolygonsFromDI` does pass
`forceOverlap = false`, but the per-fragment bounds emission the claim
describes never happens.  The source builds `Map<number, PolygonC[]>` and
hands each page's **flat** `PolygonC` list to
`convertCitationRegionsToBounds`, whose declared input nests
`ComplexPolygon[][]`; its inner `for (const polyC of region)` therefore
iterates a non-iterable head/body/tail record and throws a `TypeError` on
the first located fragment.  Proved: (a) the full behavior of
`returnTextPolygonsFromDI` — `some []` (empty array) on the two not-found
early returns and on a located summary carrying zero polygons, and `none`
(a throw) on every located summary carrying at least one fragment; (b)
the runtime conversion completes only when every page group is empty,
throwing otherwise; (c) a concrete located excerpt with one head/tail
fragment pair on page 1 makes the call throw. -/
theorem returnTextPolygons_located_throws :
    (∀ (ets : String → DocIntResponse → Summary) (text : String)
        (di : DocIntResponse),
      returnTextPolygonsFromDI ets text di =
        if (ets text di).excerpt = "" then some []
        else if jsTrim (ets text di).excerpt = "" then some []
        else if (ets text di).polygons.isEmpty then some [] else none) ∧
    (∀ (groups : List (Nat × List PolygonC)) (fo : Bool),
      convertCitationRegionsToBoundsRuntime groups fo =
        if groups.all (fun g => g.2.isEmpty) then some [] else none) ∧
    returnTextPolygonsFromDI (fun _ _ => c9DemoSummary) "q" ⟨⟨[]⟩⟩ = none := by
  refine ⟨?_, ?_, ?_⟩
  · intro ets text di
    rw [returnTextPolygonsFromDI]
    by_cases h1 : (ets text di).excerpt = ""
    · rw [if_pos h1, if_pos h1]
    · rw [if_neg h1, if_neg h1]
      by_cases h2 : jsTrim (ets text di).excerpt = ""
      · rw [if_pos h2, if_pos h2]
      · rw [if_neg h2, if_neg h2]
        rw [convertRuntime_characterization, located_groups_all_isEmpty]
  · intro groups fo
    exact convertRuntime_characterization groups fo
  · rfl

/-- One non-boundary step of the `splitIntoColumns` loop: while the next
line is adjacent to the current one (and the current line is not the last),
the loop advances without closing a column. -/
lemma splitLoop_step (lines : List Line)
    (hadj : ∀ j (hj : j + 1 < lines.length),
      adjacent lines[j + 1].polygon lines[j].polygon = true)
    (j firstLineOfCol : Nat) (cols : List Column)
    (hj : j + 1 < lines.length) :
    splitLoop lines j firstLineOfCol cols =
      splitLoop lines (j + 1) firstLineOfCol cols := by
  rw [splitLoop, dif_pos (by omega)]
  have hb1 : ¬(j = lines.length - 1) := by omega
  rw [if_neg hb1, List.getElem?_eq_getElem hj]
  dsimp only
  rw [hadj j hj]
  simp

/-- The closing step of the `splitIntoColumns` loop at the last line. -/
lemma splitLoop_last (lines : List Line) (hne : 0 < lines.length)
    (cols : List Column) :
    splitLoop lines (lines.length - 1) 0 cols =
      cols ++ [⟨combinePolygons (lines.map (fun l => l.polygon)), lines⟩] := by
  rw [splitLoop, dif_pos (by omega)]
  rw [if_pos rfl]
  dsimp only
  rw [if_pos rfl]
  have hL : lines.length - 1 + 1 = lines.length := by omega
  rw [hL, List.drop_zero]
  rw [Nat.sub_zero, List.take_length]
  rw [splitLoop, dif_neg (by omega)]

/-- **C6**: `splitIntoColumns` on zero lines returns exactly one column
with an empty polygon and empty line list; on one line it returns exactly
one column containing that line (with that line's polygon); and on any
line sequence in which every consecutive pair of lines is adjacent
(default delta) it returns exactly one column containing all the lines in
their original order. -/
theorem splitIntoColumns_single_column :
    splitIntoColumns [] = [⟨[], []⟩] ∧
    (∀ l : Line, splitIntoColumns [l] = [⟨l.polygon, [l]⟩]) ∧
    (∀ lines : List Line,
      (∀ j (hj : j + 1 < lines.length),
        adjacent lines[j + 1].polygon lines[j].polygon = true) →
      (splitIntoColumns lines).map (fun c => c.lines) = [lines]) := by
  refine ⟨rfl, fun l => rfl, ?_⟩
  intro lines hadj
  match hsh : lines with
  | [] => rfl
  | [l] => rfl
  | l1 :: l2 :: rest =>
    have hlen : 2 ≤ lines.length := by
      rw [hsh]
      simp only [List.length_cons]
      omega
    rw [← hsh] at hadj ⊢
    have hloop : ∀ m j, j + m = lines.length - 1 →
        splitLoop lines j 0 [] =
          [⟨combinePolygons (lines.map (fun l => l.polygon)), lines⟩] := by
      intro m
      induction m with
      | zero =>
        intro j hjm
        have hj : j = lines.length - 1 := by omega
        subst hj
        exact splitLoop_last lines (by omega) []
      | succ p ih =>
        intro j hjm
        rw [splitLoop_step lines hadj j 0 [] (by omega)]
        exact ih (j + 1) (by omega)
    have hdef : splitIntoColumns lines = splitLoop lines 0 0 [] := by
      rw [hsh]
      rfl
    rw [hdef, hloop (lines.length - 1) 0 (by omega)]
    simp

def c6DemoLines : List Line :=
  [⟨"first", [0, 0, 1, 0, 1, 0.5, 0, 0.5], [⟨0, 5⟩]⟩,
   ⟨"second", [0, 0.5, 1, 0.5, 1, 1, 0, 1], [⟨6, 6⟩]⟩,
   ⟨"third", [0, 1, 1, 1, 1, 1.5, 0, 1.5], [⟨13, 5⟩]⟩]

/-- Witness for **C6** at a concrete three-line single-column page whose
consecutive lines touch. -/
theorem splitIntoColumns_single_column_witness :
    splitIntoColumns ([] : List Line) = [⟨[], []⟩] ∧
    (splitIntoColumns c6DemoLines).map (fun c => c.lines) =
      [c6DemoLines] := by
  constructor
  · exact splitIntoColumns_single_column.1
  · refine splitIntoColumns_single_column.2.2 c6DemoLines ?_
    intro j hj
    simp only [c6DemoLines, List.length_cons, List.length_nil] at hj
    have hj2 : j < 2 := by omega
    interval_cases j <;>
      simp only [c6DemoLines, List.getElem_cons_zero, List.getElem_cons_succ] <;>
      norm_num [adjacent, round, jsRound, List.getD_cons_zero,
        List.getD_cons_succ]

def c10DemoWords : List Word :=
  [⟨"alpha", [], ⟨0, 3⟩⟩, ⟨"beta", [], ⟨5, 3⟩⟩, ⟨"gamma", [], ⟨10, 3⟩⟩,
   ⟨"delta", [], ⟨20, 3⟩⟩]

/-- Witness for **C10** at a concrete sorted word list with span offsets
`0, 5, 10, 20` and the query range `[4, 11]`: the search keeps exactly the
words starting at `5` and `10`, and the word starting at `0` (whose span
`[0, 3)`... overlaps nothing here but begins before the range) is
excluded. -/
theorem offsetSearch_filters_by_span_start_witness :
    (compareOffsets [4, 11] 4 = 0 ∧ compareOffsets [4, 11] 11 = 0) ∧
    offsetBinarySearch c10DemoWords 0 c10DemoWords.length [4, 11] =
      c10DemoWords.filter (fun w =>
        decide (4 ≤ w.span.offset ∧ w.span.offset ≤ 11)) ∧
    ⟨"alpha", [], ⟨0, 3⟩⟩ ∉
      offsetBinarySearch c10DemoWords 0 c10DemoWords.length [4, 11] := by
  refine ⟨⟨?_, ?_⟩, ?_, ?_⟩
  · exact (offsetSearch_filters_by_span_start.1 4 11 4).mpr (by decide)
  · exact (offsetSearch_filters_by_span_start.1 4 11 11).mpr (by decide)
  · exact offsetSearch_filters_by_span_start.2.1 c10DemoWords 4 11 (by decide)
  · exact offsetSearch_filters_by_span_start.2.2 c10DemoWords 4 11
      ⟨"alpha", [], ⟨0, 3⟩⟩ (by decide) (by decide)

/-- Witness for **C7** at the spec's examples: a rectangle strictly below
another compares `1`, strictly above compares `-1`, vertically overlapping
but to the right compares `2`. -/
theorem comparePolygons_reading_order_witness :
    comparePolygons [0, 2, 1, 2, 1, 3, 0, 3] [0, 0, 1, 0, 1, 1, 0, 1] = 1 ∧
    comparePolygons [0, 0, 1, 0, 1, 1, 0, 1] [0, 2, 1, 2, 1, 3, 0, 3] = -1 ∧
    comparePolygons [2, 0, 3, 0, 3, 1, 2, 1] [0, 0, 1, 0, 1, 1, 0, 1] = 2 := by
  refine ⟨?_, ?_, ?_⟩
  · exact (comparePolygons_reading_order [0, 2, 1, 2, 1, 3, 0, 3]
      [0, 0, 1, 0, 1, 1, 0, 1] (by norm_num) (by norm_num)).2.1.mpr
      (by norm_num)
  · exact (comparePolygons_reading_order [0, 0, 1, 0, 1, 1, 0, 1]
      [0, 2, 1, 2, 1, 3, 0, 3] (by norm_num) (by norm_num)).1.mpr
      (by norm_num)
  · exact (comparePolygons_reading_order [2, 0, 3, 0, 3, 1, 2, 1]
      [0, 0, 1, 0, 1, 1, 0, 1] (by norm_num) (by norm_num)).2.2.2.1.mpr
      (by norm_num)

end Excitation
